import Mathlib

/-!
# converter.js: a scatterplot from CSV rows

A shallow embedding of `src/converter.js`: the `on('data')` row handler, the
bounds, the coordinate mappers `mapX` / `mapY`, the label formatter `fmt` and
the document assembled by `generateDrawio`.

## Numbers

A JavaScript number is embedded as `JSNum`: `NaN`, the two infinities, or a
finite value carried as its exact rational value. Arithmetic on finite values
is exact: rounding to the nearest double and overflow to an infinity are not
modelled, and the sign of zero is not tracked (a zero divisor counts as `+0`).
The special values follow IEEE 754 as ECMA-262 prescribes.

Where overflow decides a claim, `mapXDouble` and `mapYDouble` repeat the two mappers
with `JSNum.overflow` applied to the result of each operation: a finite result at or
beyond `2^1024 - 2^970` in magnitude becomes an infinity, as it does in a double.

## Rows, strings and the document

A row is the list of its columns, name and cell text, in `Object.keys` order; a
value that may be `undefined` is an `Option String`. The built-ins `parseFloat`,
`Math.min`, `Math.max`, `Number::toString` and `toFixed` follow ECMA-262 on exact
values. The text appended to `xmlBody` is kept as the list of its `mxCell`
elements, each with its `id`, `value`, `style` and geometry, the coordinates as
numbers; the time stamp of the header is an argument.
-/

namespace ScatterPlot

/-! ## JavaScript numbers -/

/-- A JavaScript number value: `NaN`, `+Infinity`, `-Infinity`, or a finite value. -/
inductive JSNum where
  | nan
  | posInf
  | negInf
  | fin (q : ℚ)
deriving DecidableEq

namespace JSNum

instance : Inhabited JSNum := ⟨nan⟩

instance : OfNat JSNum n := ⟨fin n⟩

/-- The infinity with the sign of `s`, and `NaN` when `s` is zero. -/
def ofSign (s : ℚ) : JSNum :=
  if 0 < s then posInf else if s < 0 then negInf else nan

/-- The sign of a number as a rational: `1`, `-1`, `0`, or the finite value itself. -/
def sgn : JSNum → ℚ
  | nan => 0
  | posInf => 1
  | negInf => -1
  | fin q => q

/-- Unary minus. -/
def neg : JSNum → JSNum
  | nan => nan
  | posInf => negInf
  | negInf => posInf
  | fin q => fin (-q)

/-- The `+` operator on numbers. -/
def add : JSNum → JSNum → JSNum
  | nan, _ => nan
  | _, nan => nan
  | fin a, fin b => fin (a + b)
  | posInf, negInf => nan
  | negInf, posInf => nan
  | posInf, _ => posInf
  | negInf, _ => negInf
  | fin _, posInf => posInf
  | fin _, negInf => negInf

/-- The `-` operator on numbers. -/
def sub (a b : JSNum) : JSNum := add a (neg b)

/-- The `*` operator: an infinity times zero is `NaN`. -/
def mul : JSNum → JSNum → JSNum
  | nan, _ => nan
  | _, nan => nan
  | fin a, fin b => fin (a * b)
  | a, b => ofSign (sgn a * sgn b)

/-- The `/` operator: `0/0` and `∞/∞` are `NaN`, a nonzero value over zero is an
infinity, a finite value over an infinity is zero. -/
def div : JSNum → JSNum → JSNum
  | nan, _ => nan
  | _, nan => nan
  | fin a, fin b => if b = 0 then ofSign a else fin (a / b)
  | fin _, _ => fin 0
  | a, fin b => if b < 0 then neg a else a
  | _, _ => nan

instance : Neg JSNum := ⟨neg⟩
instance : Add JSNum := ⟨add⟩
instance : Sub JSNum := ⟨sub⟩
instance : Mul JSNum := ⟨mul⟩
instance : Div JSNum := ⟨div⟩

/-- The `<` operator: false as soon as one side is `NaN`. -/
def blt : JSNum → JSNum → Bool
  | nan, _ => false
  | _, nan => false
  | fin a, fin b => decide (a < b)
  | negInf, negInf => false
  | negInf, _ => true
  | posInf, _ => false
  | fin _, posInf => true
  | fin _, negInf => false

/-- The `===` operator on numbers: `NaN` is not equal to itself. -/
def strictEq : JSNum → JSNum → Bool
  | nan, _ => false
  | _, nan => false
  | a, b => decide (a = b)

/-- The global `isNaN` on a number. -/
def isNaN : JSNum → Bool
  | nan => true
  | _ => false

/-- Whether the number is finite (neither `NaN` nor an infinity). -/
def isFinite : JSNum → Bool
  | fin _ => true
  | _ => false

instance : LT JSNum := ⟨fun a b => blt a b = true⟩
instance : LE JSNum := ⟨fun a b => blt a b = true ∨ strictEq a b = true⟩

instance (a b : JSNum) : Decidable (a < b) := inferInstanceAs (Decidable (blt a b = true))
instance (a b : JSNum) : Decidable (a ≤ b) :=
  inferInstanceAs (Decidable (blt a b = true ∨ strictEq a b = true))

end JSNum

open JSNum

/-! ## Command line options and records -/

/-- The options read by `commander`. `width` and `height` are used only through
arithmetic, so they are carried as the numbers they coerce to. -/
structure Options where
  input : String
  output : String
  title : String
  width : JSNum
  height : JSNum

/-- One element of `results`: what the row handler pushes. -/
structure Record where
  x : JSNum
  y : JSNum
  label : String
deriving DecidableEq

/-! ## Bounds: `Math.min(...xs)` and `Math.max(...xs)` -/

/-- The loop of `Math.min`: `NaN` as soon as an argument is `NaN`, else the lowest so far. -/
def mathMinFrom (lowest : JSNum) : List JSNum → JSNum
  | [] => lowest
  | n :: rest => if n.isNaN then nan else mathMinFrom (if n < lowest then n else lowest) rest

/-- The built-in `Math.min`, starting from `+Infinity`. -/
def mathMin (xs : List JSNum) : JSNum := mathMinFrom posInf xs

/-- The loop of `Math.max`. -/
def mathMaxFrom (highest : JSNum) : List JSNum → JSNum
  | [] => highest
  | n :: rest => if n.isNaN then nan else mathMaxFrom (if highest < n then n else highest) rest

/-- The built-in `Math.max`, starting from `-Infinity`. -/
def mathMax (xs : List JSNum) : JSNum := mathMaxFrom negInf xs

/-- Source: `const xValues = data.map(p => p.x)`. -/
def xValues (data : List Record) : List JSNum := data.map (fun p => p.x)

/-- Source: `const yValues = data.map(p => p.y)`. -/
def yValues (data : List Record) : List JSNum := data.map (fun p => p.y)

/-- Source: `const minX = Math.min(...xValues)`. -/
def minX (data : List Record) : JSNum := mathMin (xValues data)

/-- Source: `const maxX = Math.max(...xValues)`. -/
def maxX (data : List Record) : JSNum := mathMax (xValues data)

/-- Source: `const minY = Math.min(...yValues)`. -/
def minY (data : List Record) : JSNum := mathMin (yValues data)

/-- Source: `const maxY = Math.max(...yValues)`. -/
def maxY (data : List Record) : JSNum := mathMax (yValues data)

/-! ## Layout and the coordinate mappers -/

/-- Source: `const padding = 80`. -/
def padding : JSNum := fin 80

/-- Source: `const axisOffset = 60`. -/
def axisOffset : JSNum := fin 60

/-- Source: `const graphW = options.width - (padding * 2)`. -/
def graphW (options : Options) : JSNum := options.width - (padding * fin 2)

/-- Source: `const graphH = options.height - (padding * 2)`. -/
def graphH (options : Options) : JSNum := options.height - (padding * fin 2)

/-- A computed number together with the divisors of the divisions that were
evaluated on the way, in evaluation order. -/
structure Traced where
  value : JSNum
  divisors : List JSNum
deriving DecidableEq

/-- The body of `mapX`, recording each divisor it divides by. The closure reads
`graphW`, `minX` and `maxX` from `generateDrawio`; here they are arguments. -/
def mapXTraced (graphW minX maxX val : JSNum) : Traced :=
  if maxX.strictEq minX then
    ⟨padding + (graphW / fin 2), [fin 2]⟩
  else
    ⟨padding + ((val - minX) / (maxX - minX)) * graphW, [maxX - minX]⟩

/-- The value returned by `mapX`. -/
def mapX (graphW minX maxX val : JSNum) : JSNum := (mapXTraced graphW minX maxX val).value

/-- The body of `mapY`, recording each divisor it divides by. -/
def mapYTraced (graphH minY maxY val : JSNum) : Traced :=
  if maxY.strictEq minY then
    ⟨padding + (graphH / fin 2), [fin 2]⟩
  else
    ⟨padding + graphH - ((val - minY) / (maxY - minY)) * graphH, [maxY - minY]⟩

/-- The value returned by `mapY`. -/
def mapY (graphH minY maxY val : JSNum) : JSNum := (mapYTraced graphH minY maxY val).value

/-- Source: `const axisYPos = padding + graphH + axisOffset`. -/
def axisYPos (options : Options) : JSNum := padding + graphH options + axisOffset

/-- Source: `const axisXPos = padding - axisOffset`. -/
def axisXPos : JSNum := padding - axisOffset


/-! ## Number to string conversions -/

namespace JSNum

/-- Truncation toward zero. -/
def trunc (q : ℚ) : ℤ := if 0 ≤ q then ⌊q⌋ else ⌈q⌉

/-- The `%` operator (the remainder takes the sign of the dividend). -/
def rem : JSNum → JSNum → JSNum
  | nan, _ => nan
  | _, nan => nan
  | posInf, _ => nan
  | negInf, _ => nan
  | fin n, fin d => if d = 0 then nan else fin (n - d * trunc (n / d))
  | fin n, _ => fin n

instance : Mod JSNum := ⟨rem⟩

end JSNum

/-- The decimal digits of a natural number, most significant first; `0` gives `"0"`. -/
def digitsOf (n : ℕ) : List Char := Nat.toDigits 10 n

/-- Drops trailing decimal zeros of a positive number, at most `fuel` of them. -/
def stripZerosFuel : ℕ → ℕ → ℕ
  | 0, s => s
  | fuel + 1, s => if s % 10 = 0 ∧ s ≠ 0 then stripZerosFuel fuel (s / 10) else s

/-- The significand `s` of `Number::toString` for a positive integer `x`: `x` without
its trailing zeros. -/
def stripZeros (x : ℕ) : ℕ := stripZerosFuel x x

/-- Steps 5 to 12 of `Number::toString` (radix 10) for a positive integer `x`. With
`n` the number of digits of `x`, `s` its digits without trailing zeros and `k` the
number of digits of `s`: for `n ≤ 21` the digits of `s` followed by `n - k` zeros, and
scientific notation beyond. The digits are the exact decimal digits of `x`; the
shortest digits that read back as the same double, which ECMA-262 asks for, are the
same digits for `x < 2^53` and whenever `x` has at most 15 significant digits. -/
def positiveIntegerToString (x : ℕ) : List Char :=
  let n := (digitsOf x).length
  let s := stripZeros x
  let k := (digitsOf s).length
  if n ≤ 21 then
    digitsOf s ++ List.replicate (n - k) '0'
  else if k = 1 then
    digitsOf s ++ ['e', '+'] ++ digitsOf (n - 1)
  else
    (digitsOf s).take 1 ++ ['.'] ++ (digitsOf s).drop 1 ++ ['e', '+'] ++ digitsOf (n - 1)

/-- The operation `Number::toString` on the values this program passes to it: a non-finite or an
integer-valued number. Of a finite value that is not an integer the integer part is
printed; no double reaches that case here (`fmt` passes integer-valued numbers, and
`toFixed` only values of magnitude at least `10^21`, which as doubles are integers). -/
def numberToString : JSNum → String
  | nan => "NaN"
  | posInf => "Infinity"
  | negInf => "-Infinity"
  | fin q =>
    if q = 0 then "0"
    else if q < 0 then ⟨'-' :: positiveIntegerToString ⌊-q⌋.toNat⟩
    else ⟨positiveIntegerToString ⌊q⌋.toNat⟩

/-- The method `Number.prototype.toFixed(1)`. For a finite `x` below `10^21` in magnitude: the
integer `n` for which `n / 10 - |x|` is closest to zero (the larger on a tie), printed
with a decimal point before its last digit, after a `-` when `x < 0`. -/
def toFixed1 : JSNum → String
  | fin q =>
    let s : List Char := if q < 0 then ['-'] else []
    let x : ℚ := |q|
    if (10 : ℚ) ^ 21 ≤ x then
      ⟨s ++ (numberToString (fin x)).data⟩
    else
      let n : ℕ := ⌊x * 10 + 1 / 2⌋.toNat
      let m : List Char := if n = 0 then ['0'] else digitsOf n
      let k : ℕ := m.length
      let m : List Char := if k ≤ 1 then List.replicate (1 + 1 - k) '0' ++ m else m
      let k : ℕ := if k ≤ 1 then 1 + 1 else k
      ⟨s ++ m.take (k - 1) ++ ['.'] ++ m.drop (k - 1)⟩
  | x => numberToString x

/-- The call `s.replace(/\.0$/, '')`: a final `.0` is removed. -/
def stripDotZero (s : String) : String :=
  match s.data.reverse with
  | '0' :: '.' :: rest => ⟨rest.reverse⟩
  | _ => s

/-- Source: `const fmt = (n) => n % 1 === 0 ? n.toString() : n.toFixed(1).replace(/\.0$/, '')`. -/
def fmt (n : JSNum) : String :=
  if (n % fin 1).strictEq (fin 0) then numberToString n else stripDotZero (toFixed1 n)


/-! ## The row handler: `parseFloat` and record extraction -/

/-- The code points `parseFloat` skips at the start: white space and line terminators. -/
def isStrWhiteSpaceChar (c : Char) : Bool :=
  c.toNat ∈ [0x09, 0x0A, 0x0B, 0x0C, 0x0D, 0x20, 0xA0, 0x1680, 0x2000, 0x2001, 0x2002,
    0x2003, 0x2004, 0x2005, 0x2006, 0x2007, 0x2008, 0x2009, 0x200A, 0x2028, 0x2029,
    0x202F, 0x205F, 0x3000, 0xFEFF]

/-- The value of a string of decimal digits. -/
def digitsValue (ds : List Char) : ℕ :=
  ds.foldl (fun acc c => 10 * acc + (c.toNat - '0'.toNat)) 0

/-- The value of an `ExponentPart` at the head of `cs`, when there is one: `e` or `E`,
an optional sign, and at least one digit. Without one the exponent is `0`. -/
def exponentPart (cs : List Char) : ℤ :=
  match cs with
  | e :: rest =>
    if e = 'e' ∨ e = 'E' then
      match rest with
      | '+' :: ds => digitsValue (ds.takeWhile Char.isDigit)
      | '-' :: ds => -(digitsValue (ds.takeWhile Char.isDigit) : ℤ)
      | ds => digitsValue (ds.takeWhile Char.isDigit)
    else 0
  | [] => 0

/-- The longest prefix of `cs` that is a `StrUnsignedDecimalLiteral`, as its value:
`Infinity`, or digits with an optional fraction and an optional exponent. `none` when
no prefix is one. The value of a finite literal is exact. -/
def unsignedLiteral (cs : List Char) : Option JSNum :=
  if "Infinity".data.isPrefixOf cs then some posInf
  else
    let intDigits := cs.takeWhile Char.isDigit
    let afterInt := cs.dropWhile Char.isDigit
    let fracDigits := match afterInt with
      | '.' :: rest => rest.takeWhile Char.isDigit
      | _ => []
    let afterFrac := match afterInt with
      | '.' :: rest => rest.dropWhile Char.isDigit
      | _ => afterInt
    if intDigits = [] ∧ fracDigits = [] then none
    else
      some (fin ((digitsValue (intDigits ++ fracDigits) : ℚ)
        * (10 : ℚ) ^ (exponentPart afterFrac - (fracDigits.length : ℤ))))

/-- The longest prefix of `cs` that is a `StrDecimalLiteral` (an optional sign, then an
unsigned literal), as its value; `NaN` when no prefix is one. -/
def parseFloatChars (cs : List Char) : JSNum :=
  match cs with
  | '+' :: rest => (unsignedLiteral rest).getD nan
  | '-' :: rest => ((unsignedLiteral rest).map JSNum.neg).getD nan
  | _ => (unsignedLiteral cs).getD nan

/-- The global `parseFloat` on a value that is a string or `undefined` (`none`):
`undefined` reads as the text `"undefined"`, which has no numeric prefix. -/
def parseFloat : Option String → JSNum
  | none => nan
  | some s => parseFloatChars (s.data.dropWhile isStrWhiteSpaceChar)

/-- One row as `csv-parser` emits it: the own properties of the object, column name
and cell text, in `Object.keys` order. -/
abbrev Row := List (String × String)

/-- The call `Object.keys(data)`. -/
def keys (data : Row) : List String := data.map (fun kv => kv.1)

/-- Property access `data[name]`: the cell text, or `undefined`. -/
def prop (data : Row) (name : String) : Option String :=
  (data.find? (fun kv => kv.1 = name)).map (fun kv => kv.2)

/-- The expression `data[keys[i]]`: when `keys[i]` is `undefined` the property read is
the one named `"undefined"`. -/
def propAt (data : Row) (i : ℕ) : Option String :=
  match (keys data)[i]? with
  | some k => prop data k
  | none => prop data "undefined"

/-- The `||` operator on values that are a string or `undefined`: the left operand
unless it is falsy (`undefined` or the empty string). -/
def jsOr (a b : Option String) : Option String :=
  match a with
  | some s => if s = "" then b else some s
  | none => b

/-- Source: `const x = parseFloat(data.x || data[keys[0]])`. -/
def extractX (data : Row) : JSNum := parseFloat (jsOr (prop data "x") (propAt data 0))

/-- Source: `const y = parseFloat(data.y || data[keys[1]])`. -/
def extractY (data : Row) : JSNum := parseFloat (jsOr (prop data "y") (propAt data 1))

/-- Source: `const label = data.label || data[keys[2]] || ''`. The last operand is a string, so
the result is one. -/
def extractLabel (data : Row) : String :=
  (jsOr (jsOr (prop data "label") (propAt data 2)) (some "")).getD ""

/-- The `on('data')` handler: the row is pushed to `results` when neither `x` nor `y`
is `NaN`. -/
def onData (results : List Record) (data : Row) : List Record :=
  let x := extractX data
  let y := extractY data
  let label := extractLabel data
  if !x.isNaN && !y.isNaN then results ++ [⟨x, y, label⟩] else results

/-- The contents of `results` when the stream ends: the handler run on each row in turn,
starting from the empty array. -/
def extractAll (rows : List Row) : List Record := rows.foldl onData []


/-! ## The document assembled by `generateDrawio` -/

/-- The geometry of an `mxCell`. -/
inductive Shape where
  /-- No geometry: the two cells of the header. -/
  | none
  /-- The element `mxGeometry` of a vertex: `x`, `y`, `width`, `height`. -/
  | vertex (x y width height : JSNum)
  /-- The element `mxGeometry` of an edge: its `sourcePoint` and its `targetPoint`. -/
  | edge (sourceX sourceY targetX targetY : JSNum)
deriving DecidableEq

/-- One `mxCell` element of the output. -/
structure Cell where
  id : String
  value : String
  style : String
  shape : Shape
deriving DecidableEq

/-- The text appended to `xmlBody`, element by element: the attributes of the
envelope that vary, and the cells in the order they are appended. -/
structure Document where
  modified : String
  dx : JSNum
  dy : JSNum
  cells : List Cell
deriving DecidableEq

/-- The two cells of the header: `id="0"` and `id="1"`. -/
def headerCells : List Cell :=
  [⟨"0", "", "", Shape.none⟩, ⟨"1", "", "", Shape.none⟩]

/-- The title block. -/
def titleCell (options : Options) : Cell :=
  ⟨"chart-title", options.title,
    "text;html=1;strokeColor=none;fillColor=none;align=center;verticalAlign=middle;whiteSpace=wrap;rounded=0;fontSize=24;fontStyle=1;",
    Shape.vertex (fin 0) (fin 20) options.width (fin 40)⟩

/-- The two axis lines, `axis-x` then `axis-y`. -/
def axisCells (options : Options) : List Cell :=
  [⟨"axis-x", "", "endArrow=classic;html=1;strokeWidth=2;strokeColor=#000000;",
      Shape.edge axisXPos (axisYPos options)
        (padding + graphW options + axisOffset + fin 20) (axisYPos options)⟩,
   ⟨"axis-y", "", "endArrow=classic;html=1;strokeWidth=2;strokeColor=#000000;",
      Shape.edge axisXPos (axisYPos options) axisXPos (padding - fin 20)⟩]

/-- Source: `const steps = 5`. -/
def steps : ℕ := 5

/-- Source: `const valX = minX + (maxX - minX) * (i / steps)`, and `valY` alike. -/
def tickValue (lo hi : JSNum) (i : ℕ) : JSNum := lo + (hi - lo) * (fin i / fin steps)

/-- The x tick mark of index `i`. -/
def xTickCell (options : Options) (data : List Record) (i : ℕ) : Cell :=
  let valX := tickValue (minX data) (maxX data) i
  let screenX := mapX (graphW options) (minX data) (maxX data) valX
  ⟨"xtick-" ++ toString i, "", "endArrow=none;html=1;strokeWidth=1;",
    Shape.edge screenX (axisYPos options) screenX (axisYPos options + fin 5)⟩

/-- The label of the x tick of index `i`. -/
def xLabelCell (options : Options) (data : List Record) (i : ℕ) : Cell :=
  let valX := tickValue (minX data) (maxX data) i
  let screenX := mapX (graphW options) (minX data) (maxX data) valX
  ⟨"xlabel-" ++ toString i, fmt valX,
    "text;html=1;align=center;verticalAlign=top;whiteSpace=wrap;rounded=0;",
    Shape.vertex (screenX - fin 20) (axisYPos options + fin 8) (fin 40) (fin 20)⟩

/-- The y tick mark of index `i`. -/
def yTickCell (options : Options) (data : List Record) (i : ℕ) : Cell :=
  let valY := tickValue (minY data) (maxY data) i
  let screenY := mapY (graphH options) (minY data) (maxY data) valY
  ⟨"ytick-" ++ toString i, "", "endArrow=none;html=1;strokeWidth=1;",
    Shape.edge axisXPos screenY (axisXPos - fin 5) screenY⟩

/-- The label of the y tick of index `i`. -/
def yLabelCell (options : Options) (data : List Record) (i : ℕ) : Cell :=
  let valY := tickValue (minY data) (maxY data) i
  let screenY := mapY (graphH options) (minY data) (maxY data) valY
  ⟨"ylabel-" ++ toString i, fmt valY,
    "text;html=1;align=right;verticalAlign=middle;whiteSpace=wrap;rounded=0;",
    Shape.vertex (axisXPos - fin 45) (screenY - fin 10) (fin 40) (fin 20)⟩

/-- What one turn of the tick loop appends. -/
def tickCells (options : Options) (data : List Record) (i : ℕ) : List Cell :=
  [xTickCell options data i, xLabelCell options data i,
   yTickCell options data i, yLabelCell options data i]

/-- The tick loop: `for (let i = 0; i <= steps; i++)`. -/
def allTickCells (options : Options) (data : List Record) : List Cell :=
  (List.range (steps + 1)).flatMap (tickCells options data)

/-- The constant `posBottom`. -/
def posBottom : String := "verticalLabelPosition=bottom;verticalAlign=top;align=center;"

/-- The constant `posTop`. -/
def posTop : String := "verticalLabelPosition=top;verticalAlign=bottom;align=center;"

/-- The constant `posRight`. -/
def posRight : String := "labelPosition=right;verticalLabelPosition=middle;align=left;"

/-- The constant `posLeft`. -/
def posLeft : String := "labelPosition=left;verticalLabelPosition=middle;align=right;"

/-- The `labelStyle` chosen for the point of index `index`. -/
def labelStyle (index : ℕ) : String :=
  let remainder := index % 4
  let s0 := posBottom
  let s1 := if remainder = 1 then posTop else s0
  let s2 := if remainder = 2 then posRight else s1
  if remainder = 3 then posLeft else s2

/-- The constant `baseStyle`. -/
def baseStyle : String :=
  "ellipse;whiteSpace=nowrap;html=1;aspect=fixed;fillColor=#f8cecc;strokeColor=#b85450;"

/-- The marker appended for `point`, the element of index `index` of `data`. -/
def pointCell (options : Options) (data : List Record) (index : ℕ) (point : Record) : Cell :=
  let screenX := mapX (graphW options) (minX data) (maxX data) point.x
  let screenY := mapY (graphH options) (minY data) (maxY data) point.y
  ⟨"pt-" ++ toString index, point.label, baseStyle ++ labelStyle index,
    Shape.vertex (screenX - fin 6) (screenY - fin 6) (fin 12) (fin 12)⟩

/-- The loop `data.forEach((point, index) => ...)`. -/
def pointCells (options : Options) (data : List Record) : List Cell :=
  data.enum.map (fun ip => pointCell options data ip.1 ip.2)

/-- The document `xmlBody` describes once the footer is appended; `now` is the text of
`new Date().toISOString()`. -/
def document (options : Options) (now : String) (data : List Record) : Document :=
  { modified := now
    dx := options.width
    dy := options.height
    cells := headerCells ++ [titleCell options] ++ axisCells options
      ++ allTickCells options data ++ pointCells options data }

/-- What a run of `generateDrawio` does to the outside: the lines written to the error
and output consoles, and the files written with their content. -/
structure Effects where
  stderr : List String
  stdout : List String
  written : List (String × Document)
deriving DecidableEq

/-- The function `generateDrawio(data)`: with no data, an error line and nothing else;
otherwise the document is written once to `options.output` and a success line follows. -/
def generateDrawio (options : Options) (now : String) (data : List Record) : Effects :=
  if data.length = 0 then
    { stderr := ["❌ Error: No valid data found in CSV."], stdout := [], written := [] }
  else
    { stderr := []
      stdout := ["✅ Success! Generated " ++ options.output ++ " with Smart Labels."]
      written := [(options.output, document options now data)] }

/-- The whole run: the rows are read, then `generateDrawio(results)` on `'end'`. -/
def run (options : Options) (now : String) (rows : List Row) : Effects :=
  generateDrawio options now (extractAll rows)


/-! ## Vocabulary of the statements -/

/-- A record as the row handler pushes it: neither coordinate is `NaN`. -/
def Accepted (r : Record) : Prop := r.x.isNaN = false ∧ r.y.isNaN = false

instance (r : Record) : Decidable (Accepted r) :=
  inferInstanceAs (Decidable (r.x.isNaN = false ∧ r.y.isNaN = false))

/-- The default options: an 800 by 600 canvas. -/
def defaultOptions : Options :=
  ⟨"data.csv", "scatterplot.drawio", "Scatterplot Analysis", fin 800, fin 600⟩

/-- Options with a canvas of 100 by 100 pixels. -/
def narrowOptions : Options :=
  ⟨"data.csv", "scatterplot.drawio", "Scatterplot Analysis", fin 100, fin 100⟩

/-- The three records `(0,0,A)`, `(10,0,B)`, `(5,10,C)`. -/
def sampleRecords : List Record :=
  [⟨fin 0, fin 0, "A"⟩, ⟨fin 10, fin 0, "B"⟩, ⟨fin 5, fin 10, "C"⟩]

/-- The record the row handler builds from a row, pushed or not. -/
def recordOf (data : Row) : Record := ⟨extractX data, extractY data, extractLabel data⟩

/-- A valid row: its resolved `x` and its resolved `y` both parse to a number, not to `NaN`. -/
def RowValid (data : Row) : Prop := (extractX data).isNaN = false ∧ (extractY data).isNaN = false

instance (data : Row) : Decidable (RowValid data) :=
  inferInstanceAs (Decidable ((extractX data).isNaN = false ∧ (extractY data).isNaN = false))

/-- Two rows, the second with the text `Infinity` for `x`. -/
def unboundedRows : List Row :=
  [[("x", "0"), ("y", "0")], [("x", "Infinity"), ("y", "1")]]

/-- The records of `unboundedRows`. -/
def unboundedRecords : List Record := [⟨fin 0, fin 0, ""⟩, ⟨posInf, fin 1, ""⟩]

/-- The message `generateDrawio` prints when there is no data. -/
def noDataMessage : String := "❌ Error: No valid data found in CSV."

/-- The magnitude of `q` in tenths, rounded to the nearest integer, a tie upwards: the
integer `n` of `toFixed(1)`. -/
def tenths (q : ℚ) : ℕ := ⌊|q| * 10 + 1 / 2⌋.toNat

/-- The sign `toFixed` and `toString` print before the digits. -/
def signChars (q : ℚ) : List Char := if q < 0 then ['-'] else []

/-- One or more decimal digits, a point, and exactly one more digit. -/
def unsignedOneFractionDigit (cs : List Char) : Bool :=
  match cs.reverse with
  | d :: '.' :: intPart => d.isDigit && !intPart.isEmpty && intPart.all Char.isDigit
  | _ => false

/-- A decimal string with exactly one digit after its decimal point: an optional `-`,
one or more digits, a point, one digit. -/
def hasOneFractionDigit (s : String) : Bool :=
  match s.data with
  | '-' :: cs => unsignedOneFractionDigit cs
  | cs => unsignedOneFractionDigit cs


/-- The centre of a vertex: its corner moved by half its width and half its height. -/
def Shape.centre : Shape → Option (JSNum × JSNum)
  | Shape.vertex x y width height => some (x + width / fin 2, y + height / fin 2)
  | _ => Option.none

/-- A row with four columns, the one named `label` empty. -/
def emptyLabelRow : Row := [("x", "1"), ("y", "2"), ("name", "C"), ("label", "")]

/-- A row with three columns, the third one empty, and no column named `label`. -/
def emptyThirdRow : Row := [("x", "1"), ("y", "2"), ("note", "")]

/-- The identifiers of the cells appended before the points: the header, the title, the
two axes, and the four cells of each of the six ticks. -/
def fixedIds : List String :=
  ["0", "1", "chart-title", "axis-x", "axis-y",
   "xtick-0", "xlabel-0", "ytick-0", "ylabel-0", "xtick-1", "xlabel-1", "ytick-1", "ylabel-1",
   "xtick-2", "xlabel-2", "ytick-2", "ylabel-2", "xtick-3", "xlabel-3", "ytick-3", "ylabel-3",
   "xtick-4", "xlabel-4", "ytick-4", "ylabel-4", "xtick-5", "xlabel-5", "ytick-5", "ylabel-5"]

/-- The identifiers of all the cells of a document, in order. -/
def Document.ids (d : Document) : List String := d.cells.map (fun c => c.id)

/-- The three rows `(0,0,A)`, `(10,0,B)`, `(5,10,C)` under the header `x,y,label`. -/
def sampleRows : List Row :=
  [[("x", "0"), ("y", "0"), ("label", "A")], [("x", "10"), ("y", "0"), ("label", "B")],
   [("x", "5"), ("y", "10"), ("label", "C")]]


/-- The value `s * v + c`, computed as JavaScript would. -/
def affine (s c : ℚ) (v : JSNum) : JSNum := fin s * v + fin c

/-- The records with each `x` replaced by `s * x + c`. -/
def scaleX (s c : ℚ) (data : List Record) : List Record :=
  data.map (fun r => ⟨affine s c r.x, r.y, r.label⟩)

/-- The records with each `y` replaced by `s * y + c`. -/
def scaleY (s c : ℚ) (data : List Record) : List Record :=
  data.map (fun r => ⟨r.x, affine s c r.y, r.label⟩)


/-! ## Overflow

The mappers once more, with the one effect of double arithmetic that can take a finite
result out of the finite numbers: overflow. Rounding is still left out. -/

/-- The magnitude from which a result rounds to an infinity: `2^1024 - 2^970`, half an
ulp above the largest double. -/
def overflowThreshold : ℚ := 2 ^ 1024 - 2 ^ 970

/-- The result of an operation as a double, rounding aside: a finite value at or beyond
the overflow threshold becomes the infinity of its sign. -/
def JSNum.overflow : JSNum → JSNum
  | fin q =>
    if overflowThreshold ≤ q then posInf
    else if q ≤ -overflowThreshold then negInf
    else fin q
  | a => a

/-- The value returned by `mapX` when each operation overflows as a double does. -/
def mapXDouble (graphW minX maxX val : JSNum) : JSNum :=
  if maxX.strictEq minX then
    (padding + (graphW / fin 2).overflow).overflow
  else
    (padding
      + (((val - minX).overflow / (maxX - minX).overflow).overflow * graphW).overflow).overflow

/-- The value returned by `mapY` when each operation overflows as a double does. -/
def mapYDouble (graphH minY maxY val : JSNum) : JSNum :=
  if maxY.strictEq minY then
    (padding + (graphH / fin 2).overflow).overflow
  else
    ((padding + graphH).overflow
      - (((val - minY).overflow / (maxY - minY).overflow).overflow * graphH).overflow).overflow

/-- Two rows whose `x` are `-1e308` and `1e308`. -/
def wideRows : List Row := [[("x", "-1e308"), ("y", "0")], [("x", "1e308"), ("y", "1")]]

/-- The records of `wideRows`. -/
def wideRecords : List Record :=
  [⟨fin (-(10 ^ 308)), fin 0, ""⟩, ⟨fin (10 ^ 308), fin 1, ""⟩]


/-! # Theorems -/

/-! ## Arithmetic and order on `JSNum` -/

namespace JSNum

@[simp] theorem fin_add_fin (a b : ℚ) : (fin a + fin b : JSNum) = fin (a + b) := rfl

@[simp] theorem fin_sub_fin (a b : ℚ) : (fin a - fin b : JSNum) = fin (a - b) := by
  show add (fin a) (neg (fin b)) = _
  simp [add, neg, sub_eq_add_neg]

@[simp] theorem fin_mul_fin (a b : ℚ) : (fin a * fin b : JSNum) = fin (a * b) := rfl

theorem fin_div_fin (a b : ℚ) (hb : b ≠ 0) : (fin a / fin b : JSNum) = fin (a / b) := by
  show div (fin a) (fin b) = _
  simp [div, hb]

@[simp] theorem fin_lt_fin (a b : ℚ) : (fin a < fin b) ↔ a < b := by
  show blt (fin a) (fin b) = true ↔ _
  simp [blt]

@[simp] theorem fin_strictEq_fin (a b : ℚ) : strictEq (fin a) (fin b) = decide (a = b) := by
  simp [strictEq]

@[simp] theorem fin_le_fin (a b : ℚ) : (fin a ≤ fin b) ↔ a ≤ b := by
  show (blt (fin a) (fin b) = true ∨ strictEq (fin a) (fin b) = true) ↔ _
  simp [blt, le_iff_lt_or_eq]

theorem lt_def (a b : JSNum) : a < b ↔ blt a b = true := Iff.rfl

theorem le_def (a b : JSNum) : a ≤ b ↔ (blt a b = true ∨ strictEq a b = true) := Iff.rfl

theorem strictEq_self (a : JSNum) (h : a.isNaN = false) : strictEq a a = true := by
  cases a <;> simp_all [strictEq, isNaN]

theorem eq_of_strictEq (a b : JSNum) (h : strictEq a b = true) : a = b := by
  cases a <;> cases b <;> simp_all [strictEq]

theorem le_refl_of_not_nan (a : JSNum) (h : a.isNaN = false) : a ≤ a :=
  Or.inr (strictEq_self a h)

theorem num_le_of_lt (a b : JSNum) (h : a < b) : a ≤ b := Or.inl h

theorem num_le_of_not_lt (a b : JSNum) (ha : a.isNaN = false) (hb : b.isNaN = false)
    (h : ¬ a < b) : b ≤ a := by
  cases a <;> cases b <;> simp_all [lt_def, le_def, blt, strictEq, isNaN]
  exact le_iff_lt_or_eq.mp h

theorem num_le_trans (a b c : JSNum) (hab : a ≤ b) (hbc : b ≤ c) : a ≤ c := by
  cases a <;> cases b <;> cases c <;> simp_all [le_def, blt, strictEq]
  exact le_iff_lt_or_eq.mp (le_trans (le_iff_lt_or_eq.mpr hab) (le_iff_lt_or_eq.mpr hbc))

theorem num_le_antisymm (a b : JSNum) (hab : a ≤ b) (hba : b ≤ a) : a = b := by
  cases a <;> cases b <;> simp_all [le_def, blt, strictEq]
  exact le_antisymm (le_iff_lt_or_eq.mpr hab) (le_iff_lt_or_eq.mpr hba)

theorem not_nan_of_le_left (a b : JSNum) (h : a ≤ b) : a.isNaN = false := by
  cases a <;> cases b <;> simp_all [le_def, blt, strictEq, isNaN]

theorem eq_posInf_of_posInf_le (a : JSNum) (h : posInf ≤ a) : a = posInf := by
  cases a <;> simp_all [le_def, blt, strictEq]

theorem eq_negInf_of_le_negInf (a : JSNum) (h : a ≤ negInf) : a = negInf := by
  cases a <;> simp_all [le_def, blt, strictEq]

end JSNum

/-! ## Bounds -/

theorem mathMinFrom_spec (xs : List JSNum) :
    ∀ lowest : JSNum, (∀ x ∈ xs, x.isNaN = false) → lowest.isNaN = false →
      (mathMinFrom lowest xs = lowest ∨ mathMinFrom lowest xs ∈ xs)
        ∧ mathMinFrom lowest xs ≤ lowest ∧ ∀ x ∈ xs, mathMinFrom lowest xs ≤ x := by
  induction xs with
  | nil =>
    intro lowest _ hl
    exact ⟨Or.inl rfl, le_refl_of_not_nan _ hl, by simp⟩
  | cons n rest ih =>
    intro lowest hxs hl
    have hn : n.isNaN = false := hxs n (List.mem_cons_self _ _)
    have hrest : ∀ x ∈ rest, x.isNaN = false := fun x hx => hxs x (List.mem_cons_of_mem _ hx)
    simp only [mathMinFrom, hn, Bool.false_eq_true, if_false]
    by_cases hlt : n < lowest
    · simp only [hlt, if_true]
      obtain ⟨h1, h2, h3⟩ := ih n hrest hn
      refine ⟨Or.inr ?_, num_le_trans _ _ _ h2 (num_le_of_lt _ _ hlt), ?_⟩
      · rcases h1 with h1 | h1
        · rw [h1]; exact List.mem_cons_self _ _
        · exact List.mem_cons_of_mem _ h1
      · intro x hx
        rcases List.mem_cons.mp hx with rfl | hx
        · exact h2
        · exact h3 x hx
    · simp only [hlt, if_false]
      obtain ⟨h1, h2, h3⟩ := ih lowest hrest hl
      refine ⟨?_, h2, ?_⟩
      · rcases h1 with h1 | h1
        · exact Or.inl h1
        · exact Or.inr (List.mem_cons_of_mem _ h1)
      · intro x hx
        rcases List.mem_cons.mp hx with rfl | hx
        · exact num_le_trans _ _ _ h2 (num_le_of_not_lt _ _ hn hl hlt)
        · exact h3 x hx

theorem mathMaxFrom_spec (xs : List JSNum) :
    ∀ highest : JSNum, (∀ x ∈ xs, x.isNaN = false) → highest.isNaN = false →
      (mathMaxFrom highest xs = highest ∨ mathMaxFrom highest xs ∈ xs)
        ∧ highest ≤ mathMaxFrom highest xs ∧ ∀ x ∈ xs, x ≤ mathMaxFrom highest xs := by
  induction xs with
  | nil =>
    intro highest _ hl
    exact ⟨Or.inl rfl, le_refl_of_not_nan _ hl, by simp⟩
  | cons n rest ih =>
    intro highest hxs hl
    have hn : n.isNaN = false := hxs n (List.mem_cons_self _ _)
    have hrest : ∀ x ∈ rest, x.isNaN = false := fun x hx => hxs x (List.mem_cons_of_mem _ hx)
    simp only [mathMaxFrom, hn, Bool.false_eq_true, if_false]
    by_cases hlt : highest < n
    · simp only [hlt, if_true]
      obtain ⟨h1, h2, h3⟩ := ih n hrest hn
      refine ⟨Or.inr ?_, num_le_trans _ _ _ (num_le_of_lt _ _ hlt) h2, ?_⟩
      · rcases h1 with h1 | h1
        · rw [h1]; exact List.mem_cons_self _ _
        · exact List.mem_cons_of_mem _ h1
      · intro x hx
        rcases List.mem_cons.mp hx with rfl | hx
        · exact h2
        · exact h3 x hx
    · simp only [hlt, if_false]
      obtain ⟨h1, h2, h3⟩ := ih highest hrest hl
      refine ⟨?_, h2, ?_⟩
      · rcases h1 with h1 | h1
        · exact Or.inl h1
        · exact Or.inr (List.mem_cons_of_mem _ h1)
      · intro x hx
        rcases List.mem_cons.mp hx with rfl | hx
        · exact num_le_trans _ _ _ (num_le_of_not_lt _ _ hl hn hlt) h2
        · exact h3 x hx

/-- The value `Math.min` of a non-empty list without `NaN` is one of its elements and is below all. -/
theorem mathMin_spec (xs : List JSNum) (hne : xs ≠ []) (hxs : ∀ x ∈ xs, x.isNaN = false) :
    mathMin xs ∈ xs ∧ ∀ x ∈ xs, mathMin xs ≤ x := by
  obtain ⟨h1, _, h3⟩ := mathMinFrom_spec xs posInf hxs rfl
  refine ⟨?_, h3⟩
  rcases h1 with h1 | h1
  · obtain ⟨a, rest, rfl⟩ := List.exists_cons_of_ne_nil hne
    have ha := h3 a (List.mem_cons_self _ _)
    have h1' : mathMin (a :: rest) = posInf := h1
    rw [h1] at ha
    rw [h1', ← eq_posInf_of_posInf_le a ha]
    exact List.mem_cons_self _ _
  · exact h1

/-- The value `Math.max` of a non-empty list without `NaN` is one of its elements and is above all. -/
theorem mathMax_spec (xs : List JSNum) (hne : xs ≠ []) (hxs : ∀ x ∈ xs, x.isNaN = false) :
    mathMax xs ∈ xs ∧ ∀ x ∈ xs, x ≤ mathMax xs := by
  obtain ⟨h1, _, h3⟩ := mathMaxFrom_spec xs negInf hxs rfl
  refine ⟨?_, h3⟩
  rcases h1 with h1 | h1
  · obtain ⟨a, rest, rfl⟩ := List.exists_cons_of_ne_nil hne
    have ha := h3 a (List.mem_cons_self _ _)
    have h1' : mathMax (a :: rest) = negInf := h1
    rw [h1] at ha
    rw [h1', ← eq_negInf_of_le_negInf a ha]
    exact List.mem_cons_self _ _
  · exact h1

theorem xValues_ne_nil (data : List Record) (hne : data ≠ []) : xValues data ≠ [] := by
  simpa [xValues] using hne

theorem yValues_ne_nil (data : List Record) (hne : data ≠ []) : yValues data ≠ [] := by
  simpa [yValues] using hne

theorem xValues_not_nan (data : List Record) (hacc : ∀ r ∈ data, Accepted r) :
    ∀ x ∈ xValues data, x.isNaN = false := by
  intro x hx
  obtain ⟨r, hr, rfl⟩ := List.mem_map.mp hx
  exact (hacc r hr).1

theorem yValues_not_nan (data : List Record) (hacc : ∀ r ∈ data, Accepted r) :
    ∀ y ∈ yValues data, y.isNaN = false := by
  intro y hy
  obtain ⟨r, hr, rfl⟩ := List.mem_map.mp hy
  exact (hacc r hr).2

/-- The four bounds of a non-empty list of accepted records: each is the coordinate of a
record, and every record lies between them. -/
theorem bounds_spec (data : List Record) (hne : data ≠ []) (hacc : ∀ r ∈ data, Accepted r) :
    (∃ r ∈ data, r.x = minX data) ∧ (∃ r ∈ data, r.x = maxX data)
      ∧ (∃ r ∈ data, r.y = minY data) ∧ (∃ r ∈ data, r.y = maxY data)
      ∧ ∀ r ∈ data, minX data ≤ r.x ∧ r.x ≤ maxX data ∧ minY data ≤ r.y ∧ r.y ≤ maxY data := by
  obtain ⟨a1, a2⟩ := mathMin_spec _ (xValues_ne_nil data hne) (xValues_not_nan data hacc)
  obtain ⟨b1, b2⟩ := mathMax_spec _ (xValues_ne_nil data hne) (xValues_not_nan data hacc)
  obtain ⟨c1, c2⟩ := mathMin_spec _ (yValues_ne_nil data hne) (yValues_not_nan data hacc)
  obtain ⟨d1, d2⟩ := mathMax_spec _ (yValues_ne_nil data hne) (yValues_not_nan data hacc)
  refine ⟨?_, ?_, ?_, ?_, ?_⟩
  · obtain ⟨r, hr, h⟩ := List.mem_map.mp a1
    exact ⟨r, hr, h⟩
  · obtain ⟨r, hr, h⟩ := List.mem_map.mp b1
    exact ⟨r, hr, h⟩
  · obtain ⟨r, hr, h⟩ := List.mem_map.mp c1
    exact ⟨r, hr, h⟩
  · obtain ⟨r, hr, h⟩ := List.mem_map.mp d1
    exact ⟨r, hr, h⟩
  · intro r hr
    exact ⟨a2 _ (List.mem_map_of_mem _ hr), b2 _ (List.mem_map_of_mem _ hr),
      c2 _ (List.mem_map_of_mem _ hr), d2 _ (List.mem_map_of_mem _ hr)⟩

/-- C8. For every non-empty list of records (as the row handler pushes them: no `NaN`
coordinate), `minX`, `maxX`, `minY` and `maxY` are each the coordinate of some record,
every record has `minX <= x <= maxX` and `minY <= y <= maxY`, and so `minX <= maxX` and
`minY <= maxY`. -/
theorem bounds_are_min_and_max (data : List Record) (hne : data ≠ [])
    (hacc : ∀ r ∈ data, Accepted r) :
    ((∃ r ∈ data, r.x = minX data) ∧ (∃ r ∈ data, r.x = maxX data)
      ∧ (∃ r ∈ data, r.y = minY data) ∧ (∃ r ∈ data, r.y = maxY data))
    ∧ (∀ r ∈ data, minX data ≤ r.x ∧ r.x ≤ maxX data ∧ minY data ≤ r.y ∧ r.y ≤ maxY data)
    ∧ minX data ≤ maxX data ∧ minY data ≤ maxY data := by
  obtain ⟨h1, h2, h3, h4, h5⟩ := bounds_spec data hne hacc
  refine ⟨⟨h1, h2, h3, h4⟩, h5, ?_, ?_⟩
  · obtain ⟨r, hr, -⟩ := h1
    exact num_le_trans _ _ _ (h5 r hr).1 (h5 r hr).2.1
  · obtain ⟨r, hr, -⟩ := h1
    exact num_le_trans _ _ _ (h5 r hr).2.2.1 (h5 r hr).2.2.2

/-- C8 at the three records `(0,0,A)`, `(10,0,B)`, `(5,10,C)`. -/
theorem bounds_are_min_and_max_witness :
    (sampleRecords ≠ [] ∧ ∀ r ∈ sampleRecords, Accepted r)
    ∧ ((∃ r ∈ sampleRecords, r.x = minX sampleRecords)
      ∧ (∃ r ∈ sampleRecords, r.x = maxX sampleRecords)
      ∧ (∃ r ∈ sampleRecords, r.y = minY sampleRecords)
      ∧ (∃ r ∈ sampleRecords, r.y = maxY sampleRecords))
    ∧ (∀ r ∈ sampleRecords, minX sampleRecords ≤ r.x ∧ r.x ≤ maxX sampleRecords
        ∧ minY sampleRecords ≤ r.y ∧ r.y ≤ maxY sampleRecords)
    ∧ minX sampleRecords ≤ maxX sampleRecords ∧ minY sampleRecords ≤ maxY sampleRecords :=
  ⟨⟨by decide, by decide!⟩, bounds_are_min_and_max sampleRecords (by decide) (by decide!)⟩

theorem strictEq_of_eq (a b : JSNum) (h : a = b) (ha : a.isNaN = false) :
    strictEq b a = true := by
  subst h; exact strictEq_self a ha

/-- C2. For every non-empty list of accepted records: when all `x` are equal, `minX = maxX`
and `mapX` returns `padding + graphW / 2` whatever the value, having divided only by `2`
(the division by `maxX - minX` is not evaluated, and no divisor is zero); when all `y`
are equal, the same holds of `minY`, `maxY` and `mapY` with `graphH`. -/
theorem degenerate_axis_is_centred (options : Options) (data : List Record) (hne : data ≠ [])
    (hacc : ∀ r ∈ data, Accepted r) :
    ((∀ r ∈ data, ∀ r' ∈ data, r.x = r'.x) →
      minX data = maxX data
      ∧ (∀ val, mapXTraced (graphW options) (minX data) (maxX data) val
            = ⟨padding + graphW options / fin 2, [fin 2]⟩)
      ∧ (∀ r ∈ data, mapX (graphW options) (minX data) (maxX data) r.x
            = padding + graphW options / fin 2))
    ∧ ((∀ r ∈ data, ∀ r' ∈ data, r.y = r'.y) →
      minY data = maxY data
      ∧ (∀ val, mapYTraced (graphH options) (minY data) (maxY data) val
            = ⟨padding + graphH options / fin 2, [fin 2]⟩)
      ∧ (∀ r ∈ data, mapY (graphH options) (minY data) (maxY data) r.y
            = padding + graphH options / fin 2)) := by
  obtain ⟨⟨r1, hr1, e1⟩, ⟨r2, hr2, e2⟩, ⟨r3, hr3, e3⟩, ⟨r4, hr4, e4⟩, -⟩ :=
    bounds_spec data hne hacc
  constructor
  · intro hall
    have heq : minX data = maxX data := by rw [← e1, ← e2]; exact hall r1 hr1 r2 hr2
    have hnan : (minX data).isNaN = false := by rw [← e1]; exact (hacc r1 hr1).1
    have hs : (maxX data).strictEq (minX data) = true := strictEq_of_eq _ _ heq hnan
    have ht : ∀ val, mapXTraced (graphW options) (minX data) (maxX data) val
        = ⟨padding + graphW options / fin 2, [fin 2]⟩ := by
      intro val; simp [mapXTraced, hs]
    exact ⟨heq, ht, fun r _ => by simp [mapX, ht]⟩
  · intro hall
    have heq : minY data = maxY data := by rw [← e3, ← e4]; exact hall r3 hr3 r4 hr4
    have hnan : (minY data).isNaN = false := by rw [← e3]; exact (hacc r3 hr3).2
    have hs : (maxY data).strictEq (minY data) = true := strictEq_of_eq _ _ heq hnan
    have ht : ∀ val, mapYTraced (graphH options) (minY data) (maxY data) val
        = ⟨padding + graphH options / fin 2, [fin 2]⟩ := by
      intro val; simp [mapYTraced, hs]
    exact ⟨heq, ht, fun r _ => by simp [mapY, ht]⟩

/-- The two records `(3,1)` and `(3,2)`: one `x`, two `y`. -/
theorem degenerate_axis_is_centred_witness :
    ([⟨fin 3, fin 1, "a"⟩, ⟨fin 3, fin 2, "b"⟩] : List Record) ≠ []
    ∧ (∀ r ∈ ([⟨fin 3, fin 1, "a"⟩, ⟨fin 3, fin 2, "b"⟩] : List Record), Accepted r)
    ∧ (∀ r ∈ ([⟨fin 3, fin 1, "a"⟩, ⟨fin 3, fin 2, "b"⟩] : List Record),
        ∀ r' ∈ ([⟨fin 3, fin 1, "a"⟩, ⟨fin 3, fin 2, "b"⟩] : List Record), r.x = r'.x)
    ∧ minX [⟨fin 3, fin 1, "a"⟩, ⟨fin 3, fin 2, "b"⟩]
        = maxX [⟨fin 3, fin 1, "a"⟩, ⟨fin 3, fin 2, "b"⟩]
    ∧ mapXTraced (graphW defaultOptions) (minX [⟨fin 3, fin 1, "a"⟩, ⟨fin 3, fin 2, "b"⟩])
        (maxX [⟨fin 3, fin 1, "a"⟩, ⟨fin 3, fin 2, "b"⟩]) (fin 3) = ⟨fin 400, [fin 2]⟩ := by
  have h := degenerate_axis_is_centred defaultOptions
    [⟨fin 3, fin 1, "a"⟩, ⟨fin 3, fin 2, "b"⟩] (by decide) (by decide!)
  have hall : ∀ r ∈ ([⟨fin 3, fin 1, "a"⟩, ⟨fin 3, fin 2, "b"⟩] : List Record),
      ∀ r' ∈ ([⟨fin 3, fin 1, "a"⟩, ⟨fin 3, fin 2, "b"⟩] : List Record), r.x = r'.x := by
    decide!
  obtain ⟨h1, h2, -⟩ := h.1 hall
  refine ⟨by decide, by decide!, hall, h1, ?_⟩
  rw [h2 (fin 3)]
  decide!

/-! ## Monotonicity of the mappers -/

theorem padding_eq : padding = fin 80 := rfl

theorem mapX_fin (g lo hi v : ℚ) (h : lo ≠ hi) :
    mapX (fin g) (fin lo) (fin hi) (fin v) = fin (80 + (v - lo) / (hi - lo) * g) := by
  have h1 : hi - lo ≠ 0 := sub_ne_zero.mpr (Ne.symm h)
  simp [mapX, mapXTraced, Ne.symm h, padding_eq, fin_div_fin _ _ h1]

theorem mapY_fin (g lo hi v : ℚ) (h : lo ≠ hi) :
    mapY (fin g) (fin lo) (fin hi) (fin v) = fin (80 + g - (v - lo) / (hi - lo) * g) := by
  have h1 : hi - lo ≠ 0 := sub_ne_zero.mpr (Ne.symm h)
  simp [mapY, mapYTraced, Ne.symm h, padding_eq, fin_div_fin _ _ h1]

theorem graphW_fin (options : Options) (w : ℚ) (h : options.width = fin w) :
    graphW options = fin (w - 160) := by
  simp [graphW, h, padding_eq]; norm_num

theorem graphH_fin (options : Options) (w : ℚ) (h : options.height = fin w) :
    graphH options = fin (w - 160) := by
  simp [graphH, h, padding_eq]; norm_num

/-- C1 as stated fails on a canvas of 100 by 100 pixels (positive integers), where
`graphW = graphH = -60`: with bounds `0` and `10`, `mapX 0 = 80` and `mapX 10 = 20`, so the
larger value gets the smaller pixel `x`; and `mapY 0 = 20`, `mapY 10 = 80`, so the larger
value gets the larger pixel `y`. -/
theorem mappers_reversed_on_narrow_canvas :
    narrowOptions.width = fin 100 ∧ narrowOptions.height = fin 100
    ∧ mapX (graphW narrowOptions) (fin 0) (fin 10) (fin 0) = fin 80
    ∧ mapX (graphW narrowOptions) (fin 0) (fin 10) (fin 10) = fin 20
    ∧ ¬ (mapX (graphW narrowOptions) (fin 0) (fin 10) (fin 0)
          < mapX (graphW narrowOptions) (fin 0) (fin 10) (fin 10))
    ∧ mapY (graphH narrowOptions) (fin 0) (fin 10) (fin 0) = fin 20
    ∧ mapY (graphH narrowOptions) (fin 0) (fin 10) (fin 10) = fin 80
    ∧ ¬ (mapY (graphH narrowOptions) (fin 0) (fin 10) (fin 10)
          < mapY (graphH narrowOptions) (fin 0) (fin 10) (fin 0)) := by
  decide!

/-- C1 (amended). With finite bounds `lo < hi` and finite values `v1 < v2`: on a canvas
wider than 160 pixels (twice the padding, so `graphW > 0`), `mapX v1 < mapX v2`; on a
canvas higher than 160 pixels, `mapY v2 < mapY v1`. -/
theorem mappers_strictly_monotone (options : Options) (w h : ℚ)
    (hw : options.width = fin w) (hh : options.height = fin h) :
    (160 < w → ∀ lo hi v1 v2 : ℚ, lo < hi → v1 < v2 →
      mapX (graphW options) (fin lo) (fin hi) (fin v1)
        < mapX (graphW options) (fin lo) (fin hi) (fin v2))
    ∧ (160 < h → ∀ lo hi v1 v2 : ℚ, lo < hi → v1 < v2 →
      mapY (graphH options) (fin lo) (fin hi) (fin v2)
        < mapY (graphH options) (fin lo) (fin hi) (fin v1)) := by
  constructor
  · intro hpos lo hi v1 v2 hlohi hv
    rw [graphW_fin options w hw, mapX_fin _ _ _ _ (ne_of_lt hlohi),
      mapX_fin _ _ _ _ (ne_of_lt hlohi), fin_lt_fin]
    have hd : 0 < hi - lo := sub_pos.mpr hlohi
    have hg : 0 < w - 160 := sub_pos.mpr hpos
    have : (v1 - lo) / (hi - lo) < (v2 - lo) / (hi - lo) :=
      div_lt_div_of_pos_right (by linarith) hd
    nlinarith [mul_lt_mul_of_pos_right this hg]
  · intro hpos lo hi v1 v2 hlohi hv
    rw [graphH_fin options h hh, mapY_fin _ _ _ _ (ne_of_lt hlohi),
      mapY_fin _ _ _ _ (ne_of_lt hlohi), fin_lt_fin]
    have hd : 0 < hi - lo := sub_pos.mpr hlohi
    have hg : 0 < h - 160 := sub_pos.mpr hpos
    have : (v1 - lo) / (hi - lo) < (v2 - lo) / (hi - lo) :=
      div_lt_div_of_pos_right (by linarith) hd
    nlinarith [mul_lt_mul_of_pos_right this hg]

/-- C1 (amended) on the default 800 by 600 canvas with bounds `0` and `10`: the values `2`
and `7` go to pixels `208 < 528` across and `432 > 212` down. -/
theorem mappers_strictly_monotone_witness :
    (defaultOptions.width = fin 800 ∧ defaultOptions.height = fin 600)
    ∧ (mapX (graphW defaultOptions) (fin 0) (fin 10) (fin 2)
        < mapX (graphW defaultOptions) (fin 0) (fin 10) (fin 7))
    ∧ (mapY (graphH defaultOptions) (fin 0) (fin 10) (fin 7)
        < mapY (graphH defaultOptions) (fin 0) (fin 10) (fin 2)) :=
  ⟨⟨rfl, rfl⟩,
    (mappers_strictly_monotone defaultOptions 800 600 rfl rfl).1 (by norm_num) 0 10 2 7
      (by norm_num) (by norm_num),
    (mappers_strictly_monotone defaultOptions 800 600 rfl rfl).2 (by norm_num) 0 10 2 7
      (by norm_num) (by norm_num)⟩


/-! ## The row handler -/

theorem onData_of_valid (results : List Record) (data : Row) (h : RowValid data) :
    onData results data = results ++ [recordOf data] := by
  simp [onData, recordOf, h.1, h.2]

theorem onData_of_not_valid (results : List Record) (data : Row) (h : ¬ RowValid data) :
    onData results data = results := by
  unfold RowValid at h
  simp only [onData]
  split
  · rename_i hc
    simp only [Bool.and_eq_true, Bool.not_eq_true'] at hc
    exact absurd hc h
  · rfl

theorem foldl_onData (rows : List Row) : ∀ results : List Record,
    rows.foldl onData results = results ++ (rows.filter (fun data => RowValid data)).map recordOf := by
  induction rows with
  | nil => intro results; simp
  | cons data rest ih =>
    intro results
    rw [List.foldl_cons, ih]
    by_cases h : RowValid data
    · simp [onData_of_valid _ _ h, List.filter_cons, h]
    · simp [onData_of_not_valid _ _ h, List.filter_cons, h]

theorem extractAll_eq (rows : List Row) :
    extractAll rows = (rows.filter (fun data => RowValid data)).map recordOf := by
  simp [extractAll, foldl_onData]

/-- C6. The handler appends a row's record exactly when the row is valid (its `x` and `y`
both parse to a number that is not `NaN`) and leaves `results` unchanged otherwise. So
`results` holds the records of the valid rows, a subsequence of the rows in input order;
its length is at most the number of rows, and equal to it exactly when every row is valid. -/
theorem rows_accepted_iff_valid (rows : List Row) :
    (∀ (results : List Record) (data : Row),
      (RowValid data → onData results data = results ++ [recordOf data])
      ∧ (¬ RowValid data → onData results data = results))
    ∧ extractAll rows = (rows.filter (fun data => RowValid data)).map recordOf
    ∧ (rows.filter (fun data => RowValid data)).Sublist rows
    ∧ (extractAll rows).length ≤ rows.length
    ∧ ((extractAll rows).length = rows.length ↔ ∀ data ∈ rows, RowValid data) := by
  refine ⟨fun results data => ⟨onData_of_valid results data, onData_of_not_valid results data⟩,
    extractAll_eq rows, List.filter_sublist rows, ?_, ?_⟩
  · rw [extractAll_eq, List.length_map]
    exact List.length_filter_le _ _
  · rw [extractAll_eq, List.length_map]
    constructor
    · intro h data hd
      have := (List.filter_eq_self.mp
        ((List.filter_sublist rows).eq_of_length h)) data hd
      simpa using this
    · intro h
      rw [List.filter_eq_self.mpr (fun data hd => by simpa using h data hd)]

/-- C7 as stated fails: the row with `x` the text `Infinity` and `y` the text `1` is
pushed, and its `x` is `+Infinity`, not a finite number. -/
theorem infinite_x_is_accepted :
    extractAll [[("x", "Infinity"), ("y", "1")]] = [⟨posInf, fin 1, ""⟩]
    ∧ (⟨posInf, fin 1, ""⟩ : Record).x.isFinite = false := by
  decide!

/-- C7 (amended). Every record the handler pushes has an `x` and a `y` that are not
`NaN`; either may be an infinity. -/
theorem accepted_records_not_nan (rows : List Row) (r : Record) (hr : r ∈ extractAll rows) :
    r.x.isNaN = false ∧ r.y.isNaN = false := by
  rw [extractAll_eq] at hr
  obtain ⟨data, hd, rfl⟩ := List.mem_map.mp hr
  have := (List.mem_filter.mp hd).2
  simpa [RowValid] using this

/-- C7 (amended) on two rows, the second without a number for `y`. -/
theorem accepted_records_not_nan_witness :
    (⟨fin 1, fin 2, "A"⟩ : Record)
        ∈ extractAll [[("x", "1"), ("y", "2"), ("label", "A")], [("x", "3"), ("y", "n/a")]]
    ∧ (⟨fin 1, fin 2, "A"⟩ : Record).x.isNaN = false
    ∧ (⟨fin 1, fin 2, "A"⟩ : Record).y.isNaN = false :=
  ⟨by decide!,
    accepted_records_not_nan
      [[("x", "1"), ("y", "2"), ("label", "A")], [("x", "3"), ("y", "n/a")]]
      ⟨fin 1, fin 2, "A"⟩ (by decide!)⟩

/-- C5 as stated fails: in the row `id = 7, x = (empty), y = 3` the field named `x` exists
and parses to `NaN`, yet the extracted `x` is `7`, read from the first column. -/
theorem empty_x_falls_back_to_first_column :
    prop [("id", "7"), ("x", ""), ("y", "3")] "x" = some ""
    ∧ parseFloat (some "") = nan
    ∧ extractX [("id", "7"), ("x", ""), ("y", "3")] = fin 7
    ∧ extractAll [[("id", "7"), ("x", ""), ("y", "3")]] = [⟨fin 7, fin 3, "3"⟩] := by
  decide!

/-- C5 (amended). The extracted `x` is the float parse of the field named `x` when the row
has that field and its text is not empty; when the field is absent or empty it is the
float parse of `data[keys[0]]`, the text of the first column. Likewise `y` with the field
named `y` and `data[keys[1]]`, the text of the second column. -/
theorem x_and_y_by_name_unless_empty (data : Row) :
    (∀ v, prop data "x" = some v → v ≠ "" → extractX data = parseFloat (some v))
    ∧ ((prop data "x" = none ∨ prop data "x" = some "") →
        extractX data = parseFloat (propAt data 0))
    ∧ (∀ v, prop data "y" = some v → v ≠ "" → extractY data = parseFloat (some v))
    ∧ ((prop data "y" = none ∨ prop data "y" = some "") →
        extractY data = parseFloat (propAt data 1))
    ∧ (∀ k v rest, data = (k, v) :: rest → propAt data 0 = some v)
    ∧ (∀ k1 v1 k2 v2 rest, data = (k1, v1) :: (k2, v2) :: rest → k1 ≠ k2 →
        propAt data 1 = some v2) := by
  refine ⟨?_, ?_, ?_, ?_, ?_, ?_⟩
  · intro v h hv
    simp [extractX, h, jsOr, hv]
  · rintro (h | h) <;> simp [extractX, h, jsOr]
  · intro v h hv
    simp [extractY, h, jsOr, hv]
  · rintro (h | h) <;> simp [extractY, h, jsOr]
  · rintro k v rest rfl
    simp [propAt, keys, prop]
  · rintro k1 v1 k2 v2 rest rfl hne
    simp [propAt, keys, prop, List.find?, hne]


/-! ## The output of `generateDrawio` -/

theorem allTickCells_length (options : Options) (data : List Record) :
    (allTickCells options data).length = 24 := by
  simp [allTickCells, steps, List.range_succ, tickCells]

theorem document_cells_length (options : Options) (now : String) (data : List Record) :
    (document options now data).cells.length = 29 + data.length := by
  simp [document, headerCells, axisCells, allTickCells_length, pointCells]
  omega

/-- C9. `generateDrawio` writes no file exactly when `data` is empty, and then it prints
the error line and nothing else; for every non-empty `data` it writes exactly one file, at
`options.output`, holding the whole document (the 29 fixed cells and one cell per
record), and prints no error. For a whole run: no file is written exactly when no row is
valid. -/
theorem no_output_iff_no_data (options : Options) (now : String) (data : List Record) :
    ((generateDrawio options now data).written = [] ↔ data = [])
    ∧ (data = [] →
        generateDrawio options now data = ⟨[noDataMessage], [], []⟩)
    ∧ (data ≠ [] →
        (generateDrawio options now data).written
            = [(options.output, document options now data)]
        ∧ (generateDrawio options now data).stderr = []
        ∧ (document options now data).cells.length = 29 + data.length)
    ∧ (∀ rows : List Row,
        (run options now rows).written = [] ↔ ∀ row ∈ rows, ¬ RowValid row) := by
  have key : ∀ d : List Record, (generateDrawio options now d).written = [] ↔ d = [] := by
    intro d
    cases d with
    | nil => simp [generateDrawio]
    | cons a rest => simp [generateDrawio]
  refine ⟨key data, ?_, ?_, ?_⟩
  · rintro rfl
    simp [generateDrawio, noDataMessage]
  · intro hne
    cases data with
    | nil => exact absurd rfl hne
    | cons a rest =>
      refine ⟨by simp [generateDrawio], by simp [generateDrawio], ?_⟩
      exact document_cells_length _ _ _
  · intro rows
    rw [run, key, extractAll_eq]
    simp [List.filter_eq_nil_iff]

/-! ## Ticks -/

theorem tickValue_fin (lo hi : ℚ) (i : ℕ) :
    tickValue (fin lo) (fin hi) i = fin (lo + (hi - lo) * ((i : ℚ) / 5)) := by
  have h5 : ((steps : ℕ) : ℚ) ≠ 0 := by norm_num [steps]
  simp only [tickValue, fin_sub_fin]
  rw [fin_div_fin _ _ h5]
  simp [steps]

theorem mapX_tick (g lo hi : ℚ) (i : ℕ) (h : lo ≠ hi) :
    mapX (fin g) (fin lo) (fin hi) (tickValue (fin lo) (fin hi) i)
      = fin (80 + g * (i : ℚ) / 5) := by
  have h1 : hi - lo ≠ 0 := sub_ne_zero.mpr (Ne.symm h)
  rw [tickValue_fin, mapX_fin _ _ _ _ h]
  congr 1
  field_simp
  ring

theorem mapY_tick (g lo hi : ℚ) (i : ℕ) (h : lo ≠ hi) :
    mapY (fin g) (fin lo) (fin hi) (tickValue (fin lo) (fin hi) i)
      = fin (80 + g - g * (i : ℚ) / 5) := by
  have h1 : hi - lo ≠ 0 := sub_ne_zero.mpr (Ne.symm h)
  rw [tickValue_fin, mapY_fin _ _ _ _ h]
  congr 1
  field_simp
  ring

/-- C10 as stated fails for a bound that is not finite: the rows `(0, 0)` and
`(Infinity, 1)` are both accepted, `minX = 0` and `maxX = +Infinity`, and the value of x
tick `0` is `0 + Infinity * 0 = NaN`, not `minX`; its label reads `NaN` and it is drawn at
pixel `NaN`. -/
theorem tick_zero_not_min_for_infinite_bound :
    extractAll unboundedRows = unboundedRecords
    ∧ minX unboundedRecords = fin 0 ∧ maxX unboundedRecords = posInf
    ∧ tickValue (minX unboundedRecords) (maxX unboundedRecords) 0 = nan
    ∧ (xLabelCell defaultOptions unboundedRecords 0).value = "NaN"
    ∧ (xTickCell defaultOptions unboundedRecords 0).shape
        = Shape.edge nan (fin 580) nan (fin 585) := by
  decide!

/-- C10 (amended). The tick loop appends, for `i = 0, ..., 5` in turn, the x tick, its
label, the y tick and its label: six ticks on each axis. When the bounds are finite, tick
`i` has the value `min + (max - min) * (i / 5)`, which its label shows through `fmt`, tick
`0` has the value `min` and tick `5` the value `max`; and when moreover `max != min`, x
tick `i` is drawn at pixel `x = padding + graphW * i / 5` and y tick `i` at pixel
`y = padding + graphH - graphH * i / 5`. -/
theorem ticks_evenly_spaced (options : Options) (data : List Record) (w h xlo xhi ylo yhi : ℚ)
    (hw : options.width = fin w) (hh : options.height = fin h)
    (hxlo : minX data = fin xlo) (hxhi : maxX data = fin xhi)
    (hylo : minY data = fin ylo) (hyhi : maxY data = fin yhi) :
    allTickCells options data
        = tickCells options data 0 ++ tickCells options data 1 ++ tickCells options data 2
          ++ tickCells options data 3 ++ tickCells options data 4 ++ tickCells options data 5
    ∧ (allTickCells options data).map (fun c => c.id)
        = ["xtick-0", "xlabel-0", "ytick-0", "ylabel-0", "xtick-1", "xlabel-1", "ytick-1",
           "ylabel-1", "xtick-2", "xlabel-2", "ytick-2", "ylabel-2", "xtick-3", "xlabel-3",
           "ytick-3", "ylabel-3", "xtick-4", "xlabel-4", "ytick-4", "ylabel-4", "xtick-5",
           "xlabel-5", "ytick-5", "ylabel-5"]
    ∧ (∀ i : ℕ,
        tickValue (minX data) (maxX data) i = fin (xlo + (xhi - xlo) * ((i : ℚ) / 5))
        ∧ tickValue (minY data) (maxY data) i = fin (ylo + (yhi - ylo) * ((i : ℚ) / 5))
        ∧ (xLabelCell options data i).value = fmt (fin (xlo + (xhi - xlo) * ((i : ℚ) / 5)))
        ∧ (yLabelCell options data i).value = fmt (fin (ylo + (yhi - ylo) * ((i : ℚ) / 5))))
    ∧ tickValue (minX data) (maxX data) 0 = minX data
    ∧ tickValue (minX data) (maxX data) 5 = maxX data
    ∧ tickValue (minY data) (maxY data) 0 = minY data
    ∧ tickValue (minY data) (maxY data) 5 = maxY data
    ∧ (xlo ≠ xhi → ∀ i : ℕ,
        (xTickCell options data i).shape
          = Shape.edge (fin (80 + (w - 160) * (i : ℚ) / 5)) (axisYPos options)
              (fin (80 + (w - 160) * (i : ℚ) / 5)) (axisYPos options + fin 5))
    ∧ (ylo ≠ yhi → ∀ i : ℕ,
        (yTickCell options data i).shape
          = Shape.edge axisXPos (fin (80 + (h - 160) - (h - 160) * (i : ℚ) / 5))
              (axisXPos - fin 5) (fin (80 + (h - 160) - (h - 160) * (i : ℚ) / 5))) := by
  refine ⟨?_, ?_, ?_, ?_, ?_, ?_, ?_, ?_, ?_⟩
  · simp [allTickCells, steps, List.range_succ]
  · simp [allTickCells, steps, List.range_succ, tickCells, xTickCell, xLabelCell, yTickCell,
      yLabelCell]
    decide
  · intro i
    simp only [xLabelCell, yLabelCell, hxlo, hxhi, hylo, hyhi, tickValue_fin]
    exact ⟨trivial, trivial, trivial, trivial⟩
  · rw [hxlo, hxhi, tickValue_fin]; norm_num
  · rw [hxlo, hxhi, tickValue_fin]; norm_num
  · rw [hylo, hyhi, tickValue_fin]; norm_num
  · rw [hylo, hyhi, tickValue_fin]; norm_num
  · intro hne i
    simp only [xTickCell, hxlo, hxhi, graphW_fin options w hw, mapX_tick _ _ _ _ hne]
  · intro hne i
    simp only [yTickCell, hylo, hyhi, graphH_fin options h hh, mapY_tick _ _ _ _ hne]

/-- C10 (amended) on the default canvas with the three sample records: bounds `0` and
`10` on both axes, x tick `1` at pixel `x = 208`, y tick `1` at pixel `y = 432`. -/
theorem ticks_evenly_spaced_witness :
    (defaultOptions.width = fin 800 ∧ defaultOptions.height = fin 600
      ∧ minX sampleRecords = fin 0 ∧ maxX sampleRecords = fin 10
      ∧ minY sampleRecords = fin 0 ∧ maxY sampleRecords = fin 10)
    ∧ (xTickCell defaultOptions sampleRecords 1).shape
        = Shape.edge (fin (80 + (800 - 160) * ((1 : ℕ) : ℚ) / 5)) (axisYPos defaultOptions)
            (fin (80 + (800 - 160) * ((1 : ℕ) : ℚ) / 5)) (axisYPos defaultOptions + fin 5)
    ∧ (yTickCell defaultOptions sampleRecords 1).shape
        = Shape.edge axisXPos (fin (80 + (600 - 160) - (600 - 160) * ((1 : ℕ) : ℚ) / 5))
            (axisXPos - fin 5) (fin (80 + (600 - 160) - (600 - 160) * ((1 : ℕ) : ℚ) / 5))
    ∧ (xTickCell defaultOptions sampleRecords 1).shape
        = Shape.edge (fin 208) (fin 580) (fin 208) (fin 585)
    ∧ (yTickCell defaultOptions sampleRecords 1).shape
        = Shape.edge (fin 20) (fin 432) (fin 15) (fin 432) :=
  ⟨by decide!,
    (ticks_evenly_spaced defaultOptions sampleRecords 800 600 0 10 0 10 rfl rfl
      (by decide!) (by decide!) (by decide!) (by decide!)).2.2.2.2.2.2.2.1 (by norm_num) 1,
    (ticks_evenly_spaced defaultOptions sampleRecords 800 600 0 10 0 10 rfl rfl
      (by decide!) (by decide!) (by decide!) (by decide!)).2.2.2.2.2.2.2.2 (by norm_num) 1,
    by decide!, by decide!⟩

/-! ## Decimal digits -/

theorem digitChar_isDigit (d : ℕ) (h : d < 10) : (Nat.digitChar d).isDigit = true := by
  interval_cases d <;> decide

theorem digitChar_eq_zero_iff (d : ℕ) (h : d < 10) : Nat.digitChar d = '0' ↔ d = 0 := by
  interval_cases d <;> decide

theorem toDigitsCore_eq (fuel : ℕ) : ∀ (n : ℕ) (ds : List Char), 0 < n → n < fuel →
    Nat.toDigitsCore 10 fuel n ds = ((Nat.digits 10 n).reverse.map Nat.digitChar) ++ ds := by
  induction fuel with
  | zero => intro n ds _ h; omega
  | succ fuel ih =>
    intro n ds hpos hlt
    rw [Nat.digits_def' (by norm_num) hpos]
    simp only [Nat.toDigitsCore]
    by_cases h0 : n / 10 = 0
    · simp [h0]
    · have h1 : 0 < n / 10 := Nat.pos_of_ne_zero h0
      have h2 : n / 10 < fuel := by omega
      simp only [h0, if_false]
      rw [ih (n / 10) _ h1 h2]
      simp

theorem digitsOf_zero : digitsOf 0 = ['0'] := by decide

theorem digitsOf_pos (n : ℕ) (h : 0 < n) :
    digitsOf n = (Nat.digits 10 n).reverse.map Nat.digitChar := by
  simp [digitsOf, Nat.toDigits, toDigitsCore_eq (n + 1) n [] h (Nat.lt_succ_self n)]

theorem digitsOf_lt_ten (n : ℕ) (h : n < 10) : digitsOf n = [Nat.digitChar n] := by
  interval_cases n <;> decide

theorem digitsOf_ten_le (n : ℕ) (h : 10 ≤ n) :
    digitsOf n = digitsOf (n / 10) ++ [Nat.digitChar (n % 10)] := by
  have h1 : 0 < n / 10 := by omega
  rw [digitsOf_pos n (by omega), digitsOf_pos _ h1, Nat.digits_def' (by norm_num) (by omega)]
  simp

theorem digitsOf_isDigit (n : ℕ) : ∀ c ∈ digitsOf n, c.isDigit = true := by
  intro c hc
  rcases Nat.eq_zero_or_pos n with rfl | h
  · rw [digitsOf_zero] at hc
    simp at hc
    subst hc; decide
  · rw [digitsOf_pos n h] at hc
    simp only [List.mem_map, List.mem_reverse] at hc
    obtain ⟨d, hd, rfl⟩ := hc
    exact digitChar_isDigit d (Nat.digits_lt_base (by norm_num) hd)

theorem digitsOf_ne_nil (n : ℕ) : digitsOf n ≠ [] := by
  rcases Nat.lt_or_ge n 10 with h | h
  · rw [digitsOf_lt_ten n h]; simp
  · rw [digitsOf_ten_le n h]; simp

theorem digitsOf_mul_pow (m j : ℕ) (hm : 0 < m) :
    digitsOf (m * 10 ^ j) = digitsOf m ++ List.replicate j '0' := by
  have hpos : 0 < m * 10 ^ j := Nat.mul_pos hm (by positivity)
  rw [digitsOf_pos _ hpos, digitsOf_pos _ hm, Nat.mul_comm,
    Nat.digits_base_pow_mul (by norm_num) hm]
  simp
  exact Or.inr (by decide)

theorem digitsOf_length_le (n : ℕ) (e : ℕ) (h : n < 10 ^ e) (hn : 0 < n) :
    (digitsOf n).length ≤ e := by
  rw [digitsOf_pos n hn]
  simp only [List.length_map, List.length_reverse]
  by_contra hcon
  have h1 : e + 1 ≤ (Nat.digits 10 n).length := by omega
  have h2 : 10 ^ (e + 1) ≤ 10 ^ (Nat.digits 10 n).length :=
    Nat.pow_le_pow_right (by norm_num) h1
  have h3 := Nat.base_pow_length_digits_le 10 n (by norm_num) (by omega)
  have h4 : 10 ^ (e + 1) = 10 * 10 ^ e := by ring
  omega

theorem stripZerosFuel_spec (fuel : ℕ) : ∀ s : ℕ,
    ∃ j, s = stripZerosFuel fuel s * 10 ^ j ∧ (0 < s → 0 < stripZerosFuel fuel s) := by
  induction fuel with
  | zero => intro s; exact ⟨0, by simp [stripZerosFuel], by simp [stripZerosFuel]⟩
  | succ fuel ih =>
    intro s
    simp only [stripZerosFuel]
    by_cases h : s % 10 = 0 ∧ s ≠ 0
    · simp only [h, ne_eq, not_false_eq_true, and_self, if_true]
      obtain ⟨j, hj, hpos⟩ := ih (s / 10)
      refine ⟨j + 1, ?_, fun _ => hpos (by omega)⟩
      have : s = s / 10 * 10 := by omega
      calc s = s / 10 * 10 := this
        _ = stripZerosFuel fuel (s / 10) * 10 ^ j * 10 := by rw [← hj]
        _ = stripZerosFuel fuel (s / 10) * 10 ^ (j + 1) := by ring
    · rw [if_neg h]
      exact ⟨0, by simp, fun hs => hs⟩

theorem stripZerosFuel_mod (fuel : ℕ) : ∀ s : ℕ, 0 < s → s < 10 ^ fuel →
    stripZerosFuel fuel s % 10 ≠ 0 := by
  induction fuel with
  | zero => intro s h0 h1; simp at h1; omega
  | succ fuel ih =>
    intro s h0 h1
    simp only [stripZerosFuel]
    by_cases h : s % 10 = 0 ∧ s ≠ 0
    · rw [if_pos h]
      have h2 : 10 ^ (fuel + 1) = 10 * 10 ^ fuel := by ring
      exact ih (s / 10) (by omega) (by omega)
    · rw [if_neg h]
      intro hc
      exact h ⟨hc, by omega⟩

/-- The fuel of `stripZeros` is enough: of a positive number no trailing zero is left. -/
theorem stripZeros_mod (x : ℕ) (hx : 0 < x) : stripZeros x % 10 ≠ 0 :=
  stripZerosFuel_mod x x hx (Nat.lt_pow_self (by norm_num) x)

/-- Below `10^21` a positive integer prints as its decimal digits. -/
theorem positiveIntegerToString_eq (x : ℕ) (hx : 0 < x) (hlt : x < 10 ^ 21) :
    positiveIntegerToString x = digitsOf x := by
  obtain ⟨j, hj, hpos⟩ := stripZerosFuel_spec x x
  have hs : 0 < stripZeros x := hpos hx
  have hd : digitsOf x = digitsOf (stripZeros x) ++ List.replicate j '0' := by
    conv_lhs => rw [show x = stripZeros x * 10 ^ j from hj]
    exact digitsOf_mul_pow _ _ hs
  have hlen : (digitsOf x).length ≤ 21 := digitsOf_length_le x 21 hlt hx
  simp only [positiveIntegerToString, hlen, if_true]
  rw [hd]
  simp


/-! ## `fmt` -/

theorem trunc_intCast (z : ℤ) : JSNum.trunc (z : ℚ) = z := by
  simp [JSNum.trunc]

theorem rem_one_fin (q : ℚ) : (fin q % fin 1 : JSNum) = fin (q - JSNum.trunc q) := by
  show rem (fin q) (fin 1) = _
  simp [rem]

theorem isInteger_intCast (z : ℤ) : ((fin (z : ℚ) % fin 1 : JSNum).strictEq (fin 0)) = true := by
  rw [rem_one_fin, trunc_intCast]
  simp

theorem not_isInteger_of_den (q : ℚ) (hq : q.den ≠ 1) :
    ((fin q % fin 1 : JSNum).strictEq (fin 0)) = false := by
  rw [rem_one_fin]
  simp only [fin_strictEq_fin, decide_eq_false_iff_not]
  intro h
  apply hq
  have : q = ((JSNum.trunc q : ℤ) : ℚ) := by linarith
  rw [this]
  exact Rat.den_intCast _

theorem fmt_of_den (q : ℚ) (hq : q.den ≠ 1) : fmt (fin q) = stripDotZero (toFixed1 (fin q)) := by
  simp [fmt, not_isInteger_of_den q hq]

theorem fmt_intCast (z : ℤ) : fmt (fin (z : ℚ)) = numberToString (fin (z : ℚ)) := by
  simp [fmt, isInteger_intCast z]

theorem fixed_split (r : ℕ) :
    (if (digitsOf r).length ≤ 1 then
        List.replicate (1 + 1 - (digitsOf r).length) '0' ++ digitsOf r else digitsOf r).take
        ((if (digitsOf r).length ≤ 1 then 1 + 1 else (digitsOf r).length) - 1)
      = digitsOf (r / 10)
    ∧ (if (digitsOf r).length ≤ 1 then
        List.replicate (1 + 1 - (digitsOf r).length) '0' ++ digitsOf r else digitsOf r).drop
        ((if (digitsOf r).length ≤ 1 then 1 + 1 else (digitsOf r).length) - 1)
      = [Nat.digitChar (r % 10)] := by
  rcases Nat.lt_or_ge r 10 with h | h
  · have h0 : r / 10 = 0 := by omega
    have h1 : r % 10 = r := by omega
    rw [digitsOf_lt_ten r h, h0, h1, digitsOf_zero]
    simp
  · have hne := digitsOf_ne_nil (r / 10)
    have hlen : 0 < (digitsOf (r / 10)).length := List.length_pos.mpr hne
    rw [digitsOf_ten_le r h]
    have h2 : ¬ ((digitsOf (r / 10) ++ [Nat.digitChar (r % 10)]).length ≤ 1) := by
      simp only [List.length_append, List.length_singleton]; omega
    simp only [h2, if_false]
    simp

theorem toFixed1_fin (q : ℚ) (hlt : |q| < 10 ^ 21) :
    toFixed1 (fin q)
      = ⟨signChars q ++ digitsOf (tenths q / 10) ++ ['.'] ++ [Nat.digitChar (tenths q % 10)]⟩ := by
  have hm : ∀ n : ℕ, (if n = 0 then ['0'] else digitsOf n) = digitsOf n := by
    intro n
    by_cases h : n = 0
    · subst h; simp [digitsOf_zero]
    · simp [h]
  have hs := fixed_split (tenths q)
  have hge : ¬ ((10 : ℚ) ^ 21 ≤ |q|) := not_le.mpr hlt
  unfold toFixed1
  simp only [hge, if_false, hm]
  unfold tenths at hs
  rw [List.append_assoc, List.append_assoc, hs.1, hs.2]
  simp only [signChars, tenths, List.append_assoc]

theorem stripDotZero_mk (pre : List Char) (d : Char) :
    stripDotZero ⟨pre ++ ['.'] ++ [d]⟩ = if d = '0' then ⟨pre⟩ else ⟨pre ++ ['.', d]⟩ := by
  unfold stripDotZero
  simp only [List.append_assoc, List.reverse_append, List.reverse_cons, List.reverse_nil,
    List.nil_append, List.singleton_append, List.cons_append]
  by_cases h : d = '0'
  · subst h; simp
  · simp only [h, if_false]
    split
    · rename_i rest heq
      simp at heq
      exact absurd heq.1 h
    · simp

theorem fmt_fin_of_den (q : ℚ) (hq : q.den ≠ 1) (hlt : |q| < 10 ^ 21) :
    fmt (fin q) = if tenths q % 10 = 0 then ⟨signChars q ++ digitsOf (tenths q / 10)⟩
      else ⟨signChars q ++ digitsOf (tenths q / 10) ++ ['.', Nat.digitChar (tenths q % 10)]⟩ := by
  rw [fmt_of_den q hq, toFixed1_fin q hlt, stripDotZero_mk]
  by_cases h : tenths q % 10 = 0
  · have h' : Nat.digitChar (tenths q % 10) = '0' := by
      rw [digitChar_eq_zero_iff _ (Nat.mod_lt _ (by norm_num))]; exact h
    rw [if_pos h', if_pos h]
  · have h' : ¬ Nat.digitChar (tenths q % 10) = '0' := by
      rw [digitChar_eq_zero_iff _ (Nat.mod_lt _ (by norm_num))]; exact h
    rw [if_neg h', if_neg h]

theorem all_isDigit_digitsOf (n : ℕ) : (digitsOf n).all Char.isDigit = true := by
  rw [List.all_eq_true]
  exact digitsOf_isDigit n

theorem unsignedOneFractionDigit_digits (n d : ℕ) (hd : d < 10) :
    unsignedOneFractionDigit (digitsOf n ++ ['.', Nat.digitChar d]) = true := by
  unfold unsignedOneFractionDigit
  have : (digitsOf n ++ ['.', Nat.digitChar d]).reverse
      = Nat.digitChar d :: '.' :: (digitsOf n).reverse := by simp
  rw [this]
  have hne : (digitsOf n).reverse ≠ [] := by simpa using digitsOf_ne_nil n
  simp only [digitChar_isDigit d hd, Bool.true_and, List.all_reverse, all_isDigit_digitsOf,
    Bool.and_true]
  cases h : (digitsOf n).reverse with
  | nil => exact absurd h hne
  | cons a l => rfl

theorem dot_not_mem_digitsOf (n : ℕ) : '.' ∉ digitsOf n := by
  intro h
  have := digitsOf_isDigit n '.' h
  revert this; decide

theorem dot_not_mem_signChars (q : ℚ) : '.' ∉ signChars q := by
  unfold signChars; split <;> simp

theorem dot_mem_of_unsigned (cs : List Char) (h : unsignedOneFractionDigit cs = true) :
    '.' ∈ cs := by
  unfold unsignedOneFractionDigit at h
  split at h
  · rename_i d intPart heq
    have : '.' ∈ cs.reverse := by rw [heq]; simp
    simpa using this
  · exact absurd h (by simp)

theorem dot_mem_of_hasOneFractionDigit (s : String) (h : hasOneFractionDigit s = true) :
    '.' ∈ s.data := by
  unfold hasOneFractionDigit at h
  split at h
  · rename_i cs heq
    rw [heq]
    exact List.mem_cons_of_mem _ (dot_mem_of_unsigned cs h)
  · exact dot_mem_of_unsigned _ h


/-- C3 as stated fails: `31/32 = 0.96875` is not an integer, `toFixed(1)` gives `1.0`, the
final `.0` is removed, and `fmt` returns `1`, which has no fractional digit. -/
theorem fmt_rounds_up_to_integer :
    ((fin (31 / 32) % fin 1 : JSNum).strictEq (fin 0)) = false
    ∧ toFixed1 (fin (31 / 32)) = "1.0"
    ∧ fmt (fin (31 / 32)) = "1"
    ∧ hasOneFractionDigit (fmt (fin (31 / 32))) = false := by
  decide!

/-- C3 (amended). For a number `q` that is not an integer (every such double is below
`10^21` in magnitude), `fmt` is `toFixed(1)` without a final `.0`. With `n` the magnitude
in tenths rounded to the nearest integer (a tie upwards): when the last digit of `n` is
not `0`, the result is the sign, the digits of `n / 10`, a point and that one digit, a
decimal string with exactly one digit after the point; when it is `0`, the result is the
sign and the digits of `n / 10`, with no decimal point. -/
theorem fmt_non_integer (q : ℚ) (hq : q.den ≠ 1) (hlt : |q| < 10 ^ 21) :
    (tenths q % 10 ≠ 0 →
      fmt (fin q)
        = ⟨signChars q ++ digitsOf (tenths q / 10) ++ ['.', Nat.digitChar (tenths q % 10)]⟩
      ∧ hasOneFractionDigit (fmt (fin q)) = true)
    ∧ (tenths q % 10 = 0 →
      fmt (fin q) = ⟨signChars q ++ digitsOf (tenths q / 10)⟩
      ∧ '.' ∉ (fmt (fin q)).data
      ∧ hasOneFractionDigit (fmt (fin q)) = false) := by
  have key := fmt_fin_of_den q hq hlt
  constructor
  · intro h
    rw [if_neg h] at key
    refine ⟨key, ?_⟩
    rw [key]
    have hd := unsignedOneFractionDigit_digits (tenths q / 10) (tenths q % 10)
      (Nat.mod_lt _ (by norm_num))
    unfold hasOneFractionDigit signChars
    by_cases hneg : q < 0
    · simp only [hneg, if_true, List.append_assoc, List.singleton_append, List.cons_append,
        List.nil_append]
      exact hd
    · simp only [hneg, if_false, List.nil_append]
      split
      · rename_i cs heq
        have hmem := digitsOf_isDigit (tenths q / 10) '-'
        have : '-' ∈ digitsOf (tenths q / 10) := by
          cases hds : digitsOf (tenths q / 10) with
          | nil => exact absurd hds (digitsOf_ne_nil _)
          | cons a l =>
            rw [hds] at heq
            simp at heq
            rw [heq.1]; simp
        exact absurd (hmem this) (by decide)
      · exact hd
  · intro h
    rw [if_pos h] at key
    have hdot : '.' ∉ (fmt (fin q)).data := by
      rw [key]
      simp only [List.mem_append, not_or]
      exact ⟨dot_not_mem_signChars q, dot_not_mem_digitsOf _⟩
    refine ⟨key, hdot, ?_⟩
    by_contra hcon
    exact hdot (dot_mem_of_hasOneFractionDigit _ (by simpa using hcon))

/-- C3 (amended) at `5.25`, which gives `5.3`, and at `-1/32`, which gives `-0`. -/
theorem fmt_non_integer_witness :
    (((21 : ℚ) / 4).den ≠ 1 ∧ |(21 : ℚ) / 4| < 10 ^ 21 ∧ tenths (21 / 4) % 10 ≠ 0)
    ∧ fmt (fin (21 / 4)) = "5.3"
    ∧ hasOneFractionDigit (fmt (fin (21 / 4))) = true
    ∧ fmt (fin (-1 / 32)) = "-0" := by
  have h := (fmt_non_integer (21 / 4) (by decide!) (by decide!)).1 (by decide!)
  have h2 := (fmt_non_integer (-1 / 32) (by decide!) (by decide!)).2 (by decide!)
  refine ⟨by decide!, ?_, h.2, ?_⟩
  · rw [h.1]; decide!
  · rw [h2.1]; decide!


theorem toString_int_eq (z : ℤ) :
    toString z = (⟨(if z < 0 then ['-'] else []) ++ digitsOf z.natAbs⟩ : String) := by
  cases z with
  | ofNat m =>
    have h : ¬ ((Int.ofNat m) < 0) := by simp
    simp only [h, if_false, List.nil_append]
    rfl
  | negSucc m =>
    have h : (Int.negSucc m) < 0 := Int.negSucc_lt_zero m
    simp only [h, if_true]
    rfl

theorem numberToString_intCast (z : ℤ) (h : |z| < 10 ^ 21) :
    numberToString (fin (z : ℚ))
      = ⟨(if z < 0 then ['-'] else []) ++ digitsOf z.natAbs⟩ := by
  rcases lt_trichotomy z 0 with hz | hz | hz
  · have h1 : ((z : ℚ) = 0) = False := by
      simp only [eq_iff_iff, iff_false]; exact_mod_cast ne_of_lt hz
    have h2 : (z : ℚ) < 0 := by exact_mod_cast hz
    have h3 : ⌊-(z : ℚ)⌋.toNat = z.natAbs := by
      rw [show -(z : ℚ) = ((-z : ℤ) : ℚ) by push_cast; ring, Int.floor_intCast]
      omega
    have h4 : z.natAbs < 10 ^ 21 := by
      have := abs_lt.mp h
      omega
    simp only [numberToString, h1, if_false, h2, if_true, h3, hz]
    rw [positiveIntegerToString_eq _ (by omega) h4]
    rfl
  · subst hz
    decide
  · have h1 : ((z : ℚ) = 0) = False := by
      simp only [eq_iff_iff, iff_false]; exact_mod_cast ne_of_gt hz
    have h2 : ¬ ((z : ℚ) < 0) := by
      have : (0 : ℚ) < z := by exact_mod_cast hz
      linarith
    have h2' : ¬ (z < 0) := by omega
    have h3 : ⌊(z : ℚ)⌋.toNat = z.natAbs := by
      rw [Int.floor_intCast]
      omega
    have h4 : z.natAbs < 10 ^ 21 := by
      have := abs_lt.mp h
      omega
    simp only [numberToString, h1, if_false, h2, h3, h2']
    rw [positiveIntegerToString_eq _ (by omega) h4]
    rfl

/-- C4 as stated fails from `10^21` on, where `toString` switches to exponent notation:
`1.5e21` is integer-valued and `fmt` gives `1.5e+21`, which contains a decimal point and
is not the decimal rendering `1500000000000000000000`; `fmt(1e21)` is `1e+21`. -/
theorem fmt_large_integer_is_exponential :
    ((fin (15 * 10 ^ 20) % fin 1 : JSNum).strictEq (fin 0)) = true
    ∧ fmt (fin (15 * 10 ^ 20)) = "1.5e+21"
    ∧ '.' ∈ (fmt (fin (15 * 10 ^ 20))).data
    ∧ fmt (fin (15 * 10 ^ 20)) ≠ toString (15 * 10 ^ 20 : ℤ)
    ∧ fmt (fin (10 ^ 21)) = "1e+21" := by
  decide!

/-- C4 (amended). For an integer-valued `z` below `10^21` in magnitude, `fmt` is a `-`
when `z < 0` followed by decimal digits only, with no decimal point; below `2^53` in
magnitude it is the plain decimal rendering of the integer. -/
theorem fmt_integer (z : ℤ) :
    (|z| < 10 ^ 21 →
      (∃ ds : List Char, ds ≠ [] ∧ (∀ c ∈ ds, c.isDigit = true)
        ∧ (fmt (fin (z : ℚ))).data = (if z < 0 then ['-'] else []) ++ ds)
      ∧ '.' ∉ (fmt (fin (z : ℚ))).data)
    ∧ (|z| < 2 ^ 53 → fmt (fin (z : ℚ)) = toString z) := by
  constructor
  · intro h
    have key : fmt (fin (z : ℚ)) = ⟨(if z < 0 then ['-'] else []) ++ digitsOf z.natAbs⟩ := by
      rw [fmt_intCast, numberToString_intCast z h]
    refine ⟨⟨digitsOf z.natAbs, digitsOf_ne_nil _, digitsOf_isDigit _, by rw [key]⟩, ?_⟩
    rw [key]
    simp only [List.mem_append, not_or]
    refine ⟨?_, dot_not_mem_digitsOf _⟩
    split <;> simp
  · intro h
    have h' : |z| < 10 ^ 21 := lt_trans h (by norm_num)
    rw [fmt_intCast, numberToString_intCast z h', toString_int_eq]

/-- C4 (amended) at `5`, `4` and `-1200`. -/
theorem fmt_integer_witness :
    (|(5 : ℤ)| < 2 ^ 53 ∧ |(-1200 : ℤ)| < 2 ^ 53)
    ∧ fmt (fin ((5 : ℤ) : ℚ)) = "5"
    ∧ fmt (fin ((4 : ℤ) : ℚ)) = "4"
    ∧ fmt (fin ((-1200 : ℤ) : ℚ)) = "-1200" :=
  ⟨by decide,
    ((fmt_integer 5).2 (by decide)).trans (by decide),
    ((fmt_integer 4).2 (by decide)).trans (by decide),
    ((fmt_integer (-1200)).2 (by decide)).trans (by decide)⟩

/-! ## Label placement -/

theorem labelStyle_cases (i : ℕ) :
    (i % 4 = 0 → labelStyle i = posBottom) ∧ (i % 4 = 1 → labelStyle i = posTop)
    ∧ (i % 4 = 2 → labelStyle i = posRight) ∧ (i % 4 = 3 → labelStyle i = posLeft) := by
  refine ⟨?_, ?_, ?_, ?_⟩ <;> intro h <;> simp [labelStyle, h]

/-- C11. The label style of the point of index `i` is `posBottom` when `i mod 4 = 0`,
`posTop` when `1`, `posRight` when `2` and `posLeft` when `3`; it is the style that
follows `baseStyle` in the cell `pt-i`; and index `i + 4` gets the style of index `i`. -/
theorem label_placement_mod_four (i : ℕ) :
    ((i % 4 = 0 → labelStyle i = posBottom) ∧ (i % 4 = 1 → labelStyle i = posTop)
      ∧ (i % 4 = 2 → labelStyle i = posRight) ∧ (i % 4 = 3 → labelStyle i = posLeft))
    ∧ (∀ (options : Options) (data : List Record) (point : Record),
        (pointCell options data i point).style = baseStyle ++ labelStyle i)
    ∧ labelStyle (i + 4) = labelStyle i := by
  refine ⟨labelStyle_cases i, fun _ _ _ => rfl, ?_⟩
  simp [labelStyle]

theorem label_styles_distinct :
    posBottom ≠ posTop ∧ posBottom ≠ posRight ∧ posBottom ≠ posLeft
    ∧ posTop ≠ posRight ∧ posTop ≠ posLeft ∧ posRight ≠ posLeft := by
  decide

theorem labelStyle_succ_ne (i : ℕ) : labelStyle i ≠ labelStyle (i + 1) := by
  obtain ⟨h0, h1, h2, h3⟩ := labelStyle_cases i
  obtain ⟨k0, k1, k2, k3⟩ := labelStyle_cases (i + 1)
  obtain ⟨d1, d2, d3, d4, d5, d6⟩ := label_styles_distinct
  have hm : i % 4 < 4 := Nat.mod_lt _ (by norm_num)
  rcases (by omega : i % 4 = 0 ∨ i % 4 = 1 ∨ i % 4 = 2 ∨ i % 4 = 3) with h | h | h | h
  · rw [h0 h, k1 (by omega)]; exact d1
  · rw [h1 h, k2 (by omega)]; exact d4
  · rw [h2 h, k3 (by omega)]; exact d6
  · rw [h3 h, k0 (by omega)]; exact fun e => d3 e.symm

theorem string_append_left_cancel (a b c : String) (h : a ++ b = a ++ c) : b = c := by
  have h1 : (a ++ b).data = (a ++ c).data := by rw [h]
  simp only [String.data_append] at h1
  have h2 := List.append_cancel_left h1
  cases b; cases c; simp_all

/-- C12. The four label styles are pairwise distinct, and for every index `i` the label
style of point `i` differs from the label style of point `i + 1`, so the cells `pt-i` and
`pt-(i+1)` never carry the same style. -/
theorem adjacent_points_differ (i : ℕ) :
    (posBottom ≠ posTop ∧ posBottom ≠ posRight ∧ posBottom ≠ posLeft
      ∧ posTop ≠ posRight ∧ posTop ≠ posLeft ∧ posRight ≠ posLeft)
    ∧ labelStyle i ≠ labelStyle (i + 1)
    ∧ (∀ (options : Options) (data : List Record) (p q : Record),
        (pointCell options data i p).style ≠ (pointCell options data (i + 1) q).style) := by
  refine ⟨label_styles_distinct, labelStyle_succ_ne i, ?_⟩
  intro options data p q h
  exact labelStyle_succ_ne i (string_append_left_cancel baseStyle _ _ h)

/-! ## The label of a record -/

/-- C15 as stated fails: in the row `x = 1, y = 2, name = C, label = (empty)` the field
named `label` exists and is empty, yet the extracted label is `C`, the third column; and in
the row `x = 1, y = 2, note = (empty)` the extracted label is the empty string although a
third column exists. -/
theorem empty_label_falls_back_to_third_column :
    prop emptyLabelRow "label" = some ""
    ∧ extractLabel emptyLabelRow = "C"
    ∧ prop emptyThirdRow "label" = none
    ∧ propAt emptyThirdRow 2 = some ""
    ∧ extractLabel emptyThirdRow = "" := by
  decide

/-- C15 (amended). The extracted label is the text of the field named `label` when the
row has that field and its text is not empty; otherwise it is the text of
`data[keys[2]]`, the third column, when that exists and is not empty; and it is the empty
string when each of the two is absent or empty. -/
theorem label_by_name_unless_empty (data : Row) :
    (∀ v, prop data "label" = some v → v ≠ "" → extractLabel data = v)
    ∧ ((prop data "label" = none ∨ prop data "label" = some "") →
        ∀ v, propAt data 2 = some v → v ≠ "" → extractLabel data = v)
    ∧ ((prop data "label" = none ∨ prop data "label" = some "") →
        (propAt data 2 = none ∨ propAt data 2 = some "") → extractLabel data = "")
    ∧ (∀ c1 c2 k v rest, data = c1 :: c2 :: (k, v) :: rest → c1.1 ≠ k → c2.1 ≠ k →
        propAt data 2 = some v) := by
  refine ⟨?_, ?_, ?_, ?_⟩
  · intro v h hv
    simp [extractLabel, h, jsOr, hv]
  · rintro (h | h) v h2 hv <;> simp [extractLabel, h, h2, jsOr, hv]
  · rintro (h | h) (h2 | h2) <;> simp [extractLabel, h, h2, jsOr]
  · rintro c1 c2 k v rest rfl h1 h2
    simp [propAt, keys, prop, List.find?, h1, h2]

/-! ## Markers -/

theorem sub_six_add_six (a : JSNum) : a - fin 6 + fin 12 / fin 2 = a := by
  have h : (fin 12 / fin 2 : JSNum) = fin 6 := by
    rw [fin_div_fin _ _ (by norm_num)]; norm_num
  rw [h]
  cases a with
  | nan => rfl
  | posInf => rfl
  | negInf => rfl
  | fin q => simp

theorem pointCells_getElem? (options : Options) (data : List Record) (k : ℕ) :
    (pointCells options data)[k]? = data[k]?.map (fun p => pointCell options data k p) := by
  simp only [pointCells, List.getElem?_map, List.getElem?_enum, Option.map_map]
  rfl

/-- C16. For every record of index `k`, the element of index `k` among the point elements
is the cell `pt-k`, a box 12 wide and 12 high whose top-left corner is
`(mapX(x_k) - 6, mapY(y_k) - 6)`, so that its centre is `(mapX(x_k), mapY(y_k))`. -/
theorem marker_centred_on_pixel (options : Options) (data : List Record) (k : ℕ)
    (hk : k < data.length) :
    (pointCells options data)[k]? = some (pointCell options data k (data.get ⟨k, hk⟩))
    ∧ (pointCell options data k (data.get ⟨k, hk⟩)).id = "pt-" ++ toString k
    ∧ (pointCell options data k (data.get ⟨k, hk⟩)).shape
        = Shape.vertex
            (mapX (graphW options) (minX data) (maxX data) (data.get ⟨k, hk⟩).x - fin 6)
            (mapY (graphH options) (minY data) (maxY data) (data.get ⟨k, hk⟩).y - fin 6)
            (fin 12) (fin 12)
    ∧ (pointCell options data k (data.get ⟨k, hk⟩)).shape.centre
        = some (mapX (graphW options) (minX data) (maxX data) (data.get ⟨k, hk⟩).x,
                mapY (graphH options) (minY data) (maxY data) (data.get ⟨k, hk⟩).y) := by
  refine ⟨?_, rfl, rfl, ?_⟩
  · rw [pointCells_getElem?, List.getElem?_eq_getElem hk]
    rfl
  · simp only [pointCell, Shape.centre, sub_six_add_six]

/-- C16 at the second of the three sample records, `(10, 0, B)`, on the default canvas:
the cell `pt-1` has its corner at `(714, 514)` and its centre at `(720, 520)`. -/
theorem marker_centred_on_pixel_witness :
    (1 < sampleRecords.length)
    ∧ (pointCells defaultOptions sampleRecords)[1]?
        = some ⟨"pt-1", "B", baseStyle ++ posTop,
            Shape.vertex (fin 714) (fin 514) (fin 12) (fin 12)⟩
    ∧ (pointCell defaultOptions sampleRecords 1 (sampleRecords.get ⟨1, by decide⟩)).shape.centre
        = some (fin 720, fin 520) := by
  have h := marker_centred_on_pixel defaultOptions sampleRecords 1 (by decide)
  refine ⟨by decide, ?_, ?_⟩
  · rw [h.1]; decide!
  · rw [h.2.2.2]; decide!

/-! ## Identifiers -/

theorem digitChar_value (d : ℕ) (h : d < 10) : (Nat.digitChar d).toNat - '0'.toNat = d := by
  interval_cases d <;> decide

theorem digitsValue_map_digitChar (l : List ℕ) (h : ∀ d ∈ l, d < 10) :
    digitsValue (l.reverse.map Nat.digitChar) = Nat.ofDigits 10 l := by
  induction l with
  | nil => rfl
  | cons d l ih =>
    have hd : d < 10 := h d (List.mem_cons_self _ _)
    have hl : ∀ e ∈ l, e < 10 := fun e he => h e (List.mem_cons_of_mem _ he)
    have ih' := ih hl
    unfold digitsValue at ih' ⊢
    rw [List.reverse_cons, List.map_append, List.foldl_append, ih', Nat.ofDigits_cons]
    simp only [List.map_cons, List.map_nil, List.foldl_cons, List.foldl_nil]
    rw [digitChar_value d hd]
    ring

/-- Reading the digits of a number back gives the number. -/
theorem digitsValue_digitsOf (n : ℕ) : digitsValue (digitsOf n) = n := by
  rcases Nat.eq_zero_or_pos n with rfl | h
  · decide
  · rw [digitsOf_pos n h, digitsValue_map_digitChar _ (fun d hd =>
      Nat.digits_lt_base (by norm_num) hd), Nat.ofDigits_digits]

theorem toString_nat_data (n : ℕ) : (toString n).data = digitsOf n := rfl

theorem toString_nat_injective (m n : ℕ) (h : toString m = toString n) : m = n := by
  have h1 : digitsOf m = digitsOf n := by
    rw [← toString_nat_data, ← toString_nat_data, h]
  rw [← digitsValue_digitsOf m, ← digitsValue_digitsOf n, h1]

theorem pointCells_ids (options : Options) (data : List Record) :
    (pointCells options data).map (fun c => c.id)
      = (List.range data.length).map (fun k => "pt-" ++ toString k) := by
  simp only [pointCells, List.map_map]
  rw [← List.enum_map_fst data, List.map_map]
  rfl

theorem allTickCells_ids (options : Options) (data : List Record) :
    (allTickCells options data).map (fun c => c.id)
      = ["xtick-0", "xlabel-0", "ytick-0", "ylabel-0", "xtick-1", "xlabel-1", "ytick-1",
         "ylabel-1", "xtick-2", "xlabel-2", "ytick-2", "ylabel-2", "xtick-3", "xlabel-3",
         "ytick-3", "ylabel-3", "xtick-4", "xlabel-4", "ytick-4", "ylabel-4", "xtick-5",
         "xlabel-5", "ytick-5", "ylabel-5"] := by
  simp [allTickCells, steps, List.range_succ, tickCells, xTickCell, xLabelCell, yTickCell,
    yLabelCell]
  decide

theorem document_ids (options : Options) (now : String) (data : List Record) :
    (document options now data).ids
      = fixedIds ++ (List.range data.length).map (fun k => "pt-" ++ toString k) := by
  simp only [Document.ids, document, List.map_append, pointCells_ids, allTickCells_ids]
  rfl

theorem pt_ids_nodup (n : ℕ) :
    ((List.range n).map (fun k => "pt-" ++ toString k)).Nodup := by
  refine (List.nodup_range n).map ?_
  intro a b h
  exact toString_nat_injective a b (string_append_left_cancel "pt-" _ _ h)

theorem pt_id_head (k : ℕ) : ("pt-" ++ toString k).data.head? = some 'p' := by
  simp [String.data_append]

theorem fixedIds_head : ∀ s ∈ fixedIds, s.data.head? ≠ some 'p' := by
  decide

/-- C13. The identifiers of the cells of the document are those of the 29 fixed cells
(`0`, `1`, `chart-title`, `axis-x`, `axis-y` and `xtick-i`, `xlabel-i`, `ytick-i`,
`ylabel-i` for `i` from `0` to `5`) followed by `pt-k` for `k` from `0` to `N - 1`, and no
two cells carry the same identifier. For a non-empty `data` this is the document that
`generateDrawio` writes. -/
theorem identifiers_unique (options : Options) (now : String) (data : List Record) :
    (document options now data).ids
        = fixedIds ++ (List.range data.length).map (fun k => "pt-" ++ toString k)
    ∧ (document options now data).ids.Nodup
    ∧ (data ≠ [] →
        (generateDrawio options now data).written
          = [(options.output, document options now data)]) := by
  refine ⟨document_ids options now data, ?_, ?_⟩
  · rw [document_ids, List.nodup_append]
    refine ⟨by decide, pt_ids_nodup _, ?_⟩
    intro s hs hp
    obtain ⟨k, -, rfl⟩ := List.mem_map.mp hp
    exact fixedIds_head _ hs (pt_id_head k)
  · intro hne
    cases data with
    | nil => exact absurd rfl hne
    | cons a rest => simp [generateDrawio]

/-! ## The shape of the document -/

theorem allTickCells_eq (options : Options) (data : List Record) :
    allTickCells options data
      = tickCells options data 0 ++ tickCells options data 1 ++ tickCells options data 2
        ++ tickCells options data 3 ++ tickCells options data 4 ++ tickCells options data 5 := by
  simp [allTickCells, steps, List.range_succ]

/-- C14. For every non-empty `data` with `N` records, `generateDrawio` writes one document
whose cells are, in order: the two header cells, the title, the two axis lines, for each
`i` from `0` to `5` the x tick, its label, the y tick and its label (six tick and label
pairs on each axis), and `N` point cells; the point cell of index `k` is `pt-k` and its
value is the label of the record of index `k`. -/
theorem document_shape (options : Options) (now : String) (data : List Record)
    (hne : data ≠ []) :
    (generateDrawio options now data).written = [(options.output, document options now data)]
    ∧ (document options now data).cells
        = headerCells ++ [titleCell options] ++ axisCells options
          ++ (tickCells options data 0 ++ tickCells options data 1 ++ tickCells options data 2
            ++ tickCells options data 3 ++ tickCells options data 4 ++ tickCells options data 5)
          ++ pointCells options data
    ∧ (document options now data).ids
        = fixedIds ++ (List.range data.length).map (fun k => "pt-" ++ toString k)
    ∧ (pointCells options data).length = data.length
    ∧ (pointCells options data).map (fun c => c.value) = data.map (fun p => p.label)
    ∧ ∀ (k : ℕ) (hk : k < data.length),
        (pointCells options data)[k]? = some (pointCell options data k (data.get ⟨k, hk⟩))
        ∧ (pointCell options data k (data.get ⟨k, hk⟩)).id = "pt-" ++ toString k
        ∧ (pointCell options data k (data.get ⟨k, hk⟩)).value = (data.get ⟨k, hk⟩).label := by
  refine ⟨?_, ?_, document_ids options now data, ?_, ?_, ?_⟩
  · cases data with
    | nil => exact absurd rfl hne
    | cons a rest => simp [generateDrawio]
  · simp only [document, allTickCells_eq]
  · simp [pointCells]
  · have hl : data.map (fun p => p.label) = data.enum.map (fun ip => ip.2.label) := by
      conv_lhs => rw [← List.enum_map_snd data]
      rw [List.map_map]
      rfl
    rw [hl, pointCells, List.map_map]
    rfl
  · intro k hk
    refine ⟨?_, rfl, rfl⟩
    rw [pointCells_getElem?, List.getElem?_eq_getElem hk]
    rfl

/-- C14 on the rows `(0,0,A)`, `(10,0,B)`, `(5,10,C)` and the default 800 by 600 canvas:
three records are accepted, the document has the 29 fixed cells and the three point cells
`pt-0`, `pt-1`, `pt-2` with the values `A`, `B`, `C`, and the bounds are `0` and `10` on
both axes. -/
theorem document_shape_witness :
    (extractAll sampleRows = sampleRecords ∧ sampleRecords ≠ [])
    ∧ (run defaultOptions "now" sampleRows).written
        = [("scatterplot.drawio", document defaultOptions "now" sampleRecords)]
    ∧ (document defaultOptions "now" sampleRecords).ids = fixedIds ++ ["pt-0", "pt-1", "pt-2"]
    ∧ (pointCells defaultOptions sampleRecords).length = 3
    ∧ (pointCells defaultOptions sampleRecords).map (fun c => c.value) = ["A", "B", "C"]
    ∧ minX sampleRecords = fin 0 ∧ maxX sampleRecords = fin 10
    ∧ minY sampleRecords = fin 0 ∧ maxY sampleRecords = fin 10 := by
  have h := document_shape defaultOptions "now" sampleRecords (by decide)
  have hx : extractAll sampleRows = sampleRecords := by decide!
  refine ⟨⟨hx, by decide⟩, ?_, ?_, ?_, ?_, by decide!, by decide!, by decide!, by decide!⟩
  · rw [run, hx, h.1]; rfl
  · rw [h.2.2.1]; rfl
  · rw [h.2.2.2.1]; rfl
  · rw [h.2.2.2.2.1]; rfl

/-! ## Points inside the plot area -/

theorem eq_fin_of_isFinite (a : JSNum) (h : a.isFinite = true) : ∃ q, a = fin q := by
  cases a with
  | fin q => exact ⟨q, rfl⟩
  | nan => simp [isFinite] at h
  | posInf => simp [isFinite] at h
  | negInf => simp [isFinite] at h

theorem not_nan_of_isFinite (a : JSNum) (h : a.isFinite = true) : a.isNaN = false := by
  obtain ⟨q, rfl⟩ := eq_fin_of_isFinite a h
  rfl

theorem mapX_fin_eq (g lo v : ℚ) :
    mapX (fin g) (fin lo) (fin lo) (fin v) = fin (80 + g / 2) := by
  simp [mapX, mapXTraced, padding_eq, fin_div_fin _ _ (two_ne_zero)]

theorem mapY_fin_eq (g lo v : ℚ) :
    mapY (fin g) (fin lo) (fin lo) (fin v) = fin (80 + g / 2) := by
  simp [mapY, mapYTraced, padding_eq, fin_div_fin _ _ (two_ne_zero)]

theorem ratio_mem_unit (lo hi v : ℚ) (h1 : lo ≤ v) (h2 : v ≤ hi) (hne : lo ≠ hi) :
    0 ≤ (v - lo) / (hi - lo) ∧ (v - lo) / (hi - lo) ≤ 1 := by
  have hlt : lo < hi := lt_of_le_of_ne (le_trans h1 h2) hne
  have hd : 0 < hi - lo := sub_pos.mpr hlt
  exact ⟨div_nonneg (by linarith) hd.le, (div_le_one hd).mpr (by linarith)⟩

/-- Within finite bounds `lo ≤ v ≤ hi` and for `g ≥ 0`, `mapX` lands in `[80, 80 + g]`. -/
theorem mapX_in_plot (g lo hi v : ℚ) (hg : 0 ≤ g) (h1 : lo ≤ v) (h2 : v ≤ hi) :
    ∃ p, mapX (fin g) (fin lo) (fin hi) (fin v) = fin p ∧ 80 ≤ p ∧ p ≤ 80 + g := by
  by_cases hne : lo = hi
  · subst hne
    exact ⟨_, mapX_fin_eq g lo v, by linarith, by linarith⟩
  · obtain ⟨t0, t1⟩ := ratio_mem_unit lo hi v h1 h2 hne
    refine ⟨_, mapX_fin g lo hi v hne, ?_, ?_⟩
    · nlinarith [mul_nonneg t0 hg]
    · nlinarith [mul_le_mul_of_nonneg_right t1 hg]

/-- Within finite bounds `lo ≤ v ≤ hi` and for `g ≥ 0`, `mapY` lands in `[80, 80 + g]`. -/
theorem mapY_in_plot (g lo hi v : ℚ) (hg : 0 ≤ g) (h1 : lo ≤ v) (h2 : v ≤ hi) :
    ∃ p, mapY (fin g) (fin lo) (fin hi) (fin v) = fin p ∧ 80 ≤ p ∧ p ≤ 80 + g := by
  by_cases hne : lo = hi
  · subst hne
    exact ⟨_, mapY_fin_eq g lo v, by linarith, by linarith⟩
  · obtain ⟨t0, t1⟩ := ratio_mem_unit lo hi v h1 h2 hne
    refine ⟨_, mapY_fin g lo hi v hne, ?_, ?_⟩
    · nlinarith [mul_le_mul_of_nonneg_right t1 hg]
    · nlinarith [mul_nonneg t0 hg]

theorem overflow_fin (q : ℚ) (h1 : -overflowThreshold < q) (h2 : q < overflowThreshold) :
    (fin q).overflow = fin q := by
  simp [JSNum.overflow, not_le.mpr h1, not_le.mpr h2]

theorem lt_threshold_of_overflow_isFinite (q : ℚ) (h : (fin q).overflow.isFinite = true) :
    -overflowThreshold < q ∧ q < overflowThreshold := by
  unfold JSNum.overflow at h
  by_cases h1 : overflowThreshold ≤ q
  · simp [h1, isFinite] at h
  · by_cases h2 : q ≤ -overflowThreshold
    · simp [h1, h2, isFinite] at h
    · exact ⟨not_le.mp h2, not_le.mp h1⟩

/-- When neither the range `hi - lo` nor `80 + g` reaches the overflow threshold, no
operation of `mapX` overflows within the bounds, and the double value is the exact one. -/
theorem mapXDouble_eq_mapX (g lo hi v : ℚ) (hg : 0 ≤ g) (hgT : 80 + g < overflowThreshold)
    (h1 : lo ≤ v) (h2 : v ≤ hi) (hr : hi - lo < overflowThreshold) :
    mapXDouble (fin g) (fin lo) (fin hi) (fin v) = mapX (fin g) (fin lo) (fin hi) (fin v) := by
  have hT : (0 : ℚ) < overflowThreshold := by linarith
  by_cases hne : lo = hi
  · subst hne
    have e1 : (fin g / fin 2 : JSNum) = fin (g / 2) := fin_div_fin _ _ two_ne_zero
    rw [mapX_fin_eq]
    simp only [mapXDouble, fin_strictEq_fin, decide_True, if_true, e1, padding_eq]
    rw [overflow_fin _ (by linarith) (by linarith), fin_add_fin,
      overflow_fin _ (by linarith) (by linarith)]
  · obtain ⟨t0, t1⟩ := ratio_mem_unit lo hi v h1 h2 hne
    have hd : hi - lo ≠ 0 := sub_ne_zero.mpr (Ne.symm hne)
    have hd0 : 0 ≤ hi - lo := by linarith
    have hm0 : 0 ≤ (v - lo) / (hi - lo) * g := mul_nonneg t0 hg
    have hm1 : (v - lo) / (hi - lo) * g ≤ g := by
      have := mul_le_mul_of_nonneg_right t1 hg
      linarith
    rw [mapX_fin _ _ _ _ hne]
    simp only [mapXDouble, fin_strictEq_fin, Ne.symm hne, decide_False, Bool.false_eq_true,
      if_false, padding_eq, fin_sub_fin]
    rw [overflow_fin (v - lo) (by linarith) (by linarith),
      overflow_fin (hi - lo) (by linarith) (by linarith), fin_div_fin _ _ hd,
      overflow_fin _ (by linarith) (by linarith), fin_mul_fin,
      overflow_fin _ (by linarith) (by linarith), fin_add_fin,
      overflow_fin _ (by linarith) (by linarith)]

/-- The same for `mapY`. -/
theorem mapYDouble_eq_mapY (g lo hi v : ℚ) (hg : 0 ≤ g) (hgT : 80 + g < overflowThreshold)
    (h1 : lo ≤ v) (h2 : v ≤ hi) (hr : hi - lo < overflowThreshold) :
    mapYDouble (fin g) (fin lo) (fin hi) (fin v) = mapY (fin g) (fin lo) (fin hi) (fin v) := by
  have hT : (0 : ℚ) < overflowThreshold := by linarith
  by_cases hne : lo = hi
  · subst hne
    have e1 : (fin g / fin 2 : JSNum) = fin (g / 2) := fin_div_fin _ _ two_ne_zero
    rw [mapY_fin_eq]
    simp only [mapYDouble, fin_strictEq_fin, decide_True, if_true, e1, padding_eq]
    rw [overflow_fin _ (by linarith) (by linarith), fin_add_fin,
      overflow_fin _ (by linarith) (by linarith)]
  · obtain ⟨t0, t1⟩ := ratio_mem_unit lo hi v h1 h2 hne
    have hd : hi - lo ≠ 0 := sub_ne_zero.mpr (Ne.symm hne)
    have hd0 : 0 ≤ hi - lo := by linarith
    have hm0 : 0 ≤ (v - lo) / (hi - lo) * g := mul_nonneg t0 hg
    have hm1 : (v - lo) / (hi - lo) * g ≤ g := by
      have := mul_le_mul_of_nonneg_right t1 hg
      linarith
    rw [mapY_fin _ _ _ _ hne]
    simp only [mapYDouble, fin_strictEq_fin, Ne.symm hne, decide_False, Bool.false_eq_true,
      if_false, padding_eq, fin_sub_fin, fin_add_fin]
    rw [overflow_fin (80 + g) (by linarith) (by linarith),
      overflow_fin (v - lo) (by linarith) (by linarith),
      overflow_fin (hi - lo) (by linarith) (by linarith), fin_div_fin _ _ hd,
      overflow_fin _ (by linarith) (by linarith), fin_mul_fin,
      overflow_fin _ (by linarith) (by linarith), fin_sub_fin,
      overflow_fin _ (by linarith) (by linarith)]

/-- C17 as stated fails when `maxX - minX` overflows: the rows `(-1e308, 0)` and
`(1e308, 1)` are accepted with finite coordinates, `maxX - minX` is `+Infinity` as a
double, and on the default canvas the pixel of the second record is
`80 + (Infinity / Infinity) * 640 = NaN`, which is not at or above `padding`. -/
theorem pixel_is_nan_when_range_overflows :
    extractAll wideRows = wideRecords
    ∧ (∀ r ∈ wideRecords, r.x.isFinite = true ∧ r.y.isFinite = true)
    ∧ minX wideRecords = fin (-(10 ^ 308)) ∧ maxX wideRecords = fin (10 ^ 308)
    ∧ (maxX wideRecords - minX wideRecords).overflow = posInf
    ∧ mapXDouble (graphW defaultOptions) (minX wideRecords) (maxX wideRecords) (fin (10 ^ 308))
        = nan
    ∧ ¬ (padding ≤ mapXDouble (graphW defaultOptions) (minX wideRecords) (maxX wideRecords)
          (fin (10 ^ 308))) := by
  decide!

/-- C17 (amended). On a canvas at least 160 wide and 160 high, for every non-empty list of
records with finite coordinates whose ranges `maxX - minX` and `maxY - minY` do not
overflow, and the bounds computed from that list: with each operation exact unless it
overflows (rounding aside), no operation of `mapX` or `mapY` overflows, and every record has
`padding ≤ mapX(x) ≤ padding + graphW` and `padding ≤ mapY(y) ≤ padding + graphH`; so its
pixel is strictly right of the y axis line, `axisXPos = padding - 60 < mapX(x)`, and
strictly above the x axis line, `mapY(y) < axisYPos = padding + graphH + 60`. -/
theorem points_inside_plot_area (options : Options) (w h : ℚ) (data : List Record)
    (hw : options.width = fin w) (hh : options.height = fin h)
    (hw160 : 160 ≤ w) (hh160 : 160 ≤ h)
    (hwT : w < overflowThreshold) (hhT : h < overflowThreshold) (hne : data ≠ [])
    (hfin : ∀ r ∈ data, r.x.isFinite = true ∧ r.y.isFinite = true)
    (hxr : (maxX data - minX data).overflow.isFinite = true)
    (hyr : (maxY data - minY data).overflow.isFinite = true) :
    ∀ r ∈ data,
      (mapXDouble (graphW options) (minX data) (maxX data) r.x
          = mapX (graphW options) (minX data) (maxX data) r.x
        ∧ mapYDouble (graphH options) (minY data) (maxY data) r.y
          = mapY (graphH options) (minY data) (maxY data) r.y)
      ∧ (padding ≤ mapXDouble (graphW options) (minX data) (maxX data) r.x
        ∧ mapXDouble (graphW options) (minX data) (maxX data) r.x ≤ padding + graphW options)
      ∧ (padding ≤ mapYDouble (graphH options) (minY data) (maxY data) r.y
        ∧ mapYDouble (graphH options) (minY data) (maxY data) r.y ≤ padding + graphH options)
      ∧ axisXPos < mapXDouble (graphW options) (minX data) (maxX data) r.x
      ∧ mapYDouble (graphH options) (minY data) (maxY data) r.y < axisYPos options := by
  have hacc : ∀ r ∈ data, Accepted r := fun r hr =>
    ⟨not_nan_of_isFinite _ (hfin r hr).1, not_nan_of_isFinite _ (hfin r hr).2⟩
  obtain ⟨⟨r1, hr1, e1⟩, ⟨r2, hr2, e2⟩, ⟨r3, hr3, e3⟩, ⟨r4, hr4, e4⟩, hall⟩ :=
    bounds_spec data hne hacc
  obtain ⟨xlo, hxlo⟩ := eq_fin_of_isFinite _ (hfin r1 hr1).1
  obtain ⟨xhi, hxhi⟩ := eq_fin_of_isFinite _ (hfin r2 hr2).1
  obtain ⟨ylo, hylo⟩ := eq_fin_of_isFinite _ (hfin r3 hr3).2
  obtain ⟨yhi, hyhi⟩ := eq_fin_of_isFinite _ (hfin r4 hr4).2
  rw [hxlo] at e1; rw [hxhi] at e2; rw [hylo] at e3; rw [hyhi] at e4
  rw [← e1, ← e2, fin_sub_fin] at hxr
  rw [← e3, ← e4, fin_sub_fin] at hyr
  have hxT := (lt_threshold_of_overflow_isFinite _ hxr).2
  have hyT := (lt_threshold_of_overflow_isFinite _ hyr).2
  intro r hr
  obtain ⟨x, hx⟩ := eq_fin_of_isFinite _ (hfin r hr).1
  obtain ⟨y, hy⟩ := eq_fin_of_isFinite _ (hfin r hr).2
  obtain ⟨b1, b2, b3, b4⟩ := hall r hr
  rw [← e1, hx, fin_le_fin] at b1
  rw [← e2, hx, fin_le_fin] at b2
  rw [← e3, hy, fin_le_fin] at b3
  rw [← e4, hy, fin_le_fin] at b4
  obtain ⟨p, hp, p1, p2⟩ := mapX_in_plot (w - 160) xlo xhi x (by linarith) b1 b2
  obtain ⟨q, hq, q1, q2⟩ := mapY_in_plot (h - 160) ylo yhi y (by linarith) b3 b4
  have dx := mapXDouble_eq_mapX (w - 160) xlo xhi x (by linarith) (by linarith) b1 b2 hxT
  have dy := mapYDouble_eq_mapY (h - 160) ylo yhi y (by linarith) (by linarith) b3 b4 hyT
  rw [graphW_fin options w hw, graphH_fin options h hh, ← e1, ← e2, ← e3, ← e4, hx, hy, dx,
    dy, hp, hq]
  have hax : axisXPos = fin 20 := by
    simp [axisXPos, padding_eq, axisOffset]; norm_num
  have hay : axisYPos options = fin (80 + (h - 160) + 60) := by
    simp [axisYPos, graphH_fin options h hh, padding_eq, axisOffset]
  rw [hax, hay, padding_eq]
  simp only [fin_add_fin, fin_le_fin, fin_lt_fin, and_self, true_and]
  refine ⟨⟨p1, p2⟩, ⟨q1, q2⟩, ?_, ?_⟩ <;> linarith

/-- C17 (amended) on the default canvas and the three sample records, at the record
`(10, 0, B)`: the ranges are `10` on both axes, no operation overflows, and the pixel is
`(720, 520)`, the right and the bottom edge of the plot area. -/
theorem points_inside_plot_area_witness :
    (defaultOptions.width = fin 800 ∧ defaultOptions.height = fin 600
      ∧ sampleRecords ≠ []
      ∧ (∀ r ∈ sampleRecords, r.x.isFinite = true ∧ r.y.isFinite = true)
      ∧ (maxX sampleRecords - minX sampleRecords).overflow = fin 10
      ∧ (maxY sampleRecords - minY sampleRecords).overflow = fin 10
      ∧ (⟨fin 10, fin 0, "B"⟩ : Record) ∈ sampleRecords)
    ∧ mapXDouble (graphW defaultOptions) (minX sampleRecords) (maxX sampleRecords) (fin 10)
        = fin 720
    ∧ mapYDouble (graphH defaultOptions) (minY sampleRecords) (maxY sampleRecords) (fin 0)
        = fin 520
    ∧ (padding
        ≤ mapXDouble (graphW defaultOptions) (minX sampleRecords) (maxX sampleRecords) (fin 10)
      ∧ mapXDouble (graphW defaultOptions) (minX sampleRecords) (maxX sampleRecords) (fin 10)
          ≤ padding + graphW defaultOptions)
    ∧ axisXPos
        < mapXDouble (graphW defaultOptions) (minX sampleRecords) (maxX sampleRecords) (fin 10)
    ∧ mapYDouble (graphH defaultOptions) (minY sampleRecords) (maxY sampleRecords) (fin 0)
        < axisYPos defaultOptions := by
  have h := points_inside_plot_area defaultOptions 800 600 sampleRecords rfl rfl
    (by norm_num) (by norm_num) (by decide!) (by decide!) (by decide) (by decide!)
    (by decide!) (by decide!) ⟨fin 10, fin 0, "B"⟩ (by decide!)
  exact ⟨⟨rfl, rfl, by decide, by decide!, by decide!, by decide!, by decide!⟩, by decide!,
    by decide!, h.2.1, h.2.2.2.1, h.2.2.2.2⟩

/-! ## Invariance under a change of scale -/

theorem affine_nan (s c : ℚ) : affine s c nan = nan := rfl

theorem affine_fin (s c q : ℚ) : affine s c (fin q) = fin (s * q + c) := rfl

theorem affine_posInf (s c : ℚ) (hs : 0 < s) : affine s c posInf = posInf := by
  show add (mul (fin s) posInf) (fin c) = posInf
  simp [mul, ofSign, sgn, hs, add]

theorem affine_negInf (s c : ℚ) (hs : 0 < s) : affine s c negInf = negInf := by
  show add (mul (fin s) negInf) (fin c) = negInf
  have h1 : ¬ (s < 0) := not_lt.mpr hs.le
  simp [mul, ofSign, sgn, hs, h1, add]

theorem affine_isNaN (s c : ℚ) (hs : 0 < s) (a : JSNum) :
    (affine s c a).isNaN = a.isNaN := by
  cases a with
  | nan => rfl
  | posInf => rw [affine_posInf s c hs]
  | negInf => rw [affine_negInf s c hs]
  | fin q => rfl

theorem affine_blt (s c : ℚ) (hs : 0 < s) (a b : JSNum) :
    blt (affine s c a) (affine s c b) = blt a b := by
  cases a <;> cases b <;>
    simp only [affine_nan, affine_posInf s c hs, affine_negInf s c hs, affine_fin, blt]
  rename_i p q
  have : s * p + c < s * q + c ↔ p < q := by
    constructor
    · intro h; exact lt_of_mul_lt_mul_left (by linarith) hs.le
    · intro h; nlinarith [mul_lt_mul_of_pos_left h hs]
  simp [this]

theorem affine_lt (s c : ℚ) (hs : 0 < s) (a b : JSNum) :
    affine s c a < affine s c b ↔ a < b := by
  rw [lt_def, lt_def, affine_blt s c hs]

theorem affine_strictEq (s c : ℚ) (hs : 0 < s) (a b : JSNum) :
    strictEq (affine s c a) (affine s c b) = strictEq a b := by
  have key : ∀ p q : ℚ, s * p + c = s * q + c ↔ p = q := by
    intro p q
    constructor
    · intro h
      have h2 : s * (p - q) = 0 := by linarith
      rcases mul_eq_zero.mp h2 with h3 | h3
      · exact absurd h3 (ne_of_gt hs)
      · linarith
    · intro h; rw [h]
  cases a <;> cases b <;>
    simp [affine_nan, affine_posInf s c hs, affine_negInf s c hs, affine_fin, strictEq, key]

theorem mathMinFrom_affine (s c : ℚ) (hs : 0 < s) (xs : List JSNum) :
    ∀ lowest, mathMinFrom (affine s c lowest) (xs.map (affine s c))
      = affine s c (mathMinFrom lowest xs) := by
  induction xs with
  | nil => intro lowest; rfl
  | cons n rest ih =>
    intro lowest
    simp only [List.map_cons, mathMinFrom, affine_isNaN s c hs, affine_lt s c hs]
    by_cases hn : n.isNaN = true
    · simp [hn, affine_nan]
    · simp only [hn, Bool.false_eq_true, if_false]
      by_cases hlt : n < lowest
      · simp only [hlt, if_true]; exact ih n
      · simp only [hlt, if_false]; exact ih lowest

theorem mathMaxFrom_affine (s c : ℚ) (hs : 0 < s) (xs : List JSNum) :
    ∀ highest, mathMaxFrom (affine s c highest) (xs.map (affine s c))
      = affine s c (mathMaxFrom highest xs) := by
  induction xs with
  | nil => intro highest; rfl
  | cons n rest ih =>
    intro highest
    simp only [List.map_cons, mathMaxFrom, affine_isNaN s c hs, affine_lt s c hs]
    by_cases hn : n.isNaN = true
    · simp [hn, affine_nan]
    · simp only [hn, Bool.false_eq_true, if_false]
      by_cases hlt : highest < n
      · simp only [hlt, if_true]; exact ih n
      · simp only [hlt, if_false]; exact ih highest

theorem mathMin_affine (s c : ℚ) (hs : 0 < s) (xs : List JSNum) :
    mathMin (xs.map (affine s c)) = affine s c (mathMin xs) := by
  have h := mathMinFrom_affine s c hs xs posInf
  rw [affine_posInf s c hs] at h
  exact h

theorem mathMax_affine (s c : ℚ) (hs : 0 < s) (xs : List JSNum) :
    mathMax (xs.map (affine s c)) = affine s c (mathMax xs) := by
  have h := mathMaxFrom_affine s c hs xs negInf
  rw [affine_negInf s c hs] at h
  exact h

theorem sub_def (a b : JSNum) : a - b = add a (neg b) := rfl

theorem div_def (a b : JSNum) : a / b = div a b := rfl

theorem mul_def (a b : JSNum) : a * b = mul a b := rfl

theorem add_def (a b : JSNum) : a + b = add a b := rfl

theorem ofSign_scale (s a : ℚ) (hs : 0 < s) : ofSign (s * a) = ofSign a := by
  unfold ofSign
  have h1 : 0 < s * a ↔ 0 < a := by
    constructor
    · intro h; exact pos_of_mul_pos_right h hs.le
    · intro h; exact mul_pos hs h
  have h2 : s * a < 0 ↔ a < 0 := by
    constructor
    · intro h; by_contra hc; nlinarith [mul_nonneg hs.le (not_lt.mp hc)]
    · intro h; nlinarith [mul_pos hs (neg_pos.mpr h)]
  simp only [h1, h2]

/-- The ratio `(v - lo) / (hi - lo)` is unchanged when `v`, `lo` and `hi` all go through
`s * _ + c` with `s > 0`. -/
theorem ratio_affine (s c : ℚ) (hs : 0 < s) (v lo hi : JSNum) :
    (affine s c v - affine s c lo) / (affine s c hi - affine s c lo)
      = (v - lo) / (hi - lo) := by
  have hfin : ∀ p q : ℚ, s * p + c + -(s * q + c) = s * (p + -q) := by intro p q; ring
  have hneg : ∀ a : ℚ, s * a < 0 ↔ a < 0 := by
    intro a
    constructor
    · intro h; by_contra hc; nlinarith [mul_nonneg hs.le (not_lt.mp hc)]
    · intro h; nlinarith [mul_pos hs (neg_pos.mpr h)]
  have hzero : ∀ a : ℚ, s * a = 0 ↔ a = 0 := by
    intro a
    constructor
    · intro h
      rcases mul_eq_zero.mp h with h3 | h3
      · exact absurd h3 (ne_of_gt hs)
      · exact h3
    · intro h; rw [h, mul_zero]
  cases v <;> cases lo <;> cases hi <;>
    simp only [affine_nan, affine_posInf s c hs, affine_negInf s c hs, affine_fin, sub_def,
      div_def, add, neg, div, hfin, hneg, hzero, ofSign_scale s _ hs]
  rename_i p q r
  by_cases h0 : r + -q = 0
  · simp [h0]
  · simp only [h0, if_false]
    congr 1
    field_simp
    ring

theorem mapX_affine (s c : ℚ) (hs : 0 < s) (g lo hi v : JSNum) :
    mapX g (affine s c lo) (affine s c hi) (affine s c v) = mapX g lo hi v := by
  simp only [mapX, mapXTraced, affine_strictEq s c hs, ratio_affine s c hs]
  split <;> rfl

theorem mapY_affine (s c : ℚ) (hs : 0 < s) (g lo hi v : JSNum) :
    mapY g (affine s c lo) (affine s c hi) (affine s c v) = mapY g lo hi v := by
  simp only [mapY, mapYTraced, affine_strictEq s c hs, ratio_affine s c hs]
  split <;> rfl

theorem ofSign_cases (q : ℚ) : ofSign q = posInf ∨ ofSign q = negInf ∨ ofSign q = nan := by
  unfold ofSign
  split
  · exact Or.inl rfl
  · split
    · exact Or.inr (Or.inl rfl)
    · exact Or.inr (Or.inr rfl)

/-- The tick values of the transformed bounds are the transformed tick values. -/
theorem tickValue_affine (s c : ℚ) (hs : 0 < s) (lo hi : JSNum) (i : ℕ) :
    tickValue (affine s c lo) (affine s c hi) i = affine s c (tickValue lo hi i) := by
  have h5 : ((steps : ℕ) : ℚ) ≠ 0 := by norm_num [steps]
  unfold tickValue
  rw [fin_div_fin _ _ h5]
  cases lo <;> cases hi <;>
    simp only [affine_nan, affine_posInf s c hs, affine_negInf s c hs, affine_fin, sub_def,
      mul_def, add_def, add, neg, mul, sgn]
  case fin.fin p q =>
    congr 1
    ring
  all_goals
    generalize hz : ofSign _ = z
    have hc : z = posInf ∨ z = negInf ∨ z = nan := by
      rw [← hz]; exact ofSign_cases _
    rcases hc with rfl | rfl | rfl <;>
      simp only [affine_nan, affine_posInf s c hs, affine_negInf s c hs]

theorem xValues_scaleX (s c : ℚ) (data : List Record) :
    xValues (scaleX s c data) = (xValues data).map (affine s c) := by
  simp [xValues, scaleX, List.map_map, Function.comp_def]

theorem yValues_scaleX (s c : ℚ) (data : List Record) :
    yValues (scaleX s c data) = yValues data := by
  simp [yValues, scaleX, List.map_map, Function.comp_def]

theorem yValues_scaleY (s c : ℚ) (data : List Record) :
    yValues (scaleY s c data) = (yValues data).map (affine s c) := by
  simp [yValues, scaleY, List.map_map, Function.comp_def]

theorem xValues_scaleY (s c : ℚ) (data : List Record) :
    xValues (scaleY s c data) = xValues data := by
  simp [xValues, scaleY, List.map_map, Function.comp_def]

theorem bounds_scaleX (s c : ℚ) (hs : 0 < s) (data : List Record) :
    minX (scaleX s c data) = affine s c (minX data)
    ∧ maxX (scaleX s c data) = affine s c (maxX data)
    ∧ minY (scaleX s c data) = minY data ∧ maxY (scaleX s c data) = maxY data := by
  simp only [minX, maxX, minY, maxY, xValues_scaleX, yValues_scaleX, mathMin_affine s c hs,
    mathMax_affine s c hs, and_self]

theorem bounds_scaleY (s c : ℚ) (hs : 0 < s) (data : List Record) :
    minY (scaleY s c data) = affine s c (minY data)
    ∧ maxY (scaleY s c data) = affine s c (maxY data)
    ∧ minX (scaleY s c data) = minX data ∧ maxX (scaleY s c data) = maxX data := by
  simp only [minX, maxX, minY, maxY, xValues_scaleY, yValues_scaleY, mathMin_affine s c hs,
    mathMax_affine s c hs, and_self]

/-- C18. For every list of records, every constant `c` and every scale factor `s > 0`:
when each `x` is replaced by `s * x + c` and the bounds are computed again from the new
list, the bounds are the old ones through `s * _ + c`, the `mapX` pixel of every record is
unchanged, every x tick is drawn where it was, and every marker keeps its geometry; the
same holds when each `y` is replaced by `s * y + c`, with `mapY` and the y ticks. -/
theorem layout_invariant_under_scaling (options : Options) (data : List Record) (s c : ℚ)
    (hs : 0 < s) :
    (minX (scaleX s c data) = affine s c (minX data)
      ∧ maxX (scaleX s c data) = affine s c (maxX data)
      ∧ (∀ r ∈ data,
          mapX (graphW options) (minX (scaleX s c data)) (maxX (scaleX s c data))
              (affine s c r.x)
            = mapX (graphW options) (minX data) (maxX data) r.x)
      ∧ (∀ i : ℕ, (xTickCell options (scaleX s c data) i).shape
            = (xTickCell options data i).shape)
      ∧ (pointCells options (scaleX s c data)).map (fun cell => cell.shape)
          = (pointCells options data).map (fun cell => cell.shape))
    ∧ (minY (scaleY s c data) = affine s c (minY data)
      ∧ maxY (scaleY s c data) = affine s c (maxY data)
      ∧ (∀ r ∈ data,
          mapY (graphH options) (minY (scaleY s c data)) (maxY (scaleY s c data))
              (affine s c r.y)
            = mapY (graphH options) (minY data) (maxY data) r.y)
      ∧ (∀ i : ℕ, (yTickCell options (scaleY s c data) i).shape
            = (yTickCell options data i).shape)
      ∧ (pointCells options (scaleY s c data)).map (fun cell => cell.shape)
          = (pointCells options data).map (fun cell => cell.shape)) := by
  obtain ⟨a1, a2, a3, a4⟩ := bounds_scaleX s c hs data
  obtain ⟨b1, b2, b3, b4⟩ := bounds_scaleY s c hs data
  refine ⟨⟨a1, a2, ?_, ?_, ?_⟩, ⟨b1, b2, ?_, ?_, ?_⟩⟩
  · intro r _
    rw [a1, a2, mapX_affine s c hs]
  · intro i
    simp only [xTickCell, a1, a2, tickValue_affine s c hs, mapX_affine s c hs]
  · apply List.ext_getElem?
    intro k
    simp only [List.getElem?_map, pointCells_getElem?, scaleX, Option.map_map]
    cases data[k]? with
    | none => rfl
    | some p =>
      simp only [Option.map_some', Function.comp_apply, pointCell]
      have e1 : minX (List.map (fun r => (⟨affine s c r.x, r.y, r.label⟩ : Record)) data)
          = affine s c (minX data) := a1
      have e2 : maxX (List.map (fun r => (⟨affine s c r.x, r.y, r.label⟩ : Record)) data)
          = affine s c (maxX data) := a2
      have e3 : minY (List.map (fun r => (⟨affine s c r.x, r.y, r.label⟩ : Record)) data)
          = minY data := a3
      have e4 : maxY (List.map (fun r => (⟨affine s c r.x, r.y, r.label⟩ : Record)) data)
          = maxY data := a4
      rw [e1, e2, e3, e4, mapX_affine s c hs]
  · intro r _
    rw [b1, b2, mapY_affine s c hs]
  · intro i
    simp only [yTickCell, b1, b2, tickValue_affine s c hs, mapY_affine s c hs]
  · apply List.ext_getElem?
    intro k
    simp only [List.getElem?_map, pointCells_getElem?, scaleY, Option.map_map]
    cases data[k]? with
    | none => rfl
    | some p =>
      simp only [Option.map_some', Function.comp_apply, pointCell]
      have e1 : minY (List.map (fun r => (⟨r.x, affine s c r.y, r.label⟩ : Record)) data)
          = affine s c (minY data) := b1
      have e2 : maxY (List.map (fun r => (⟨r.x, affine s c r.y, r.label⟩ : Record)) data)
          = affine s c (maxY data) := b2
      have e3 : minX (List.map (fun r => (⟨r.x, affine s c r.y, r.label⟩ : Record)) data)
          = minX data := b3
      have e4 : maxX (List.map (fun r => (⟨r.x, affine s c r.y, r.label⟩ : Record)) data)
          = maxX data := b4
      rw [e1, e2, e3, e4, mapY_affine s c hs]

/-- C18 on the three sample records with `s = 2` and `c = 3`: the `x` values `0, 10, 5`
become `3, 23, 13`, the bounds `0, 10` become `3, 23`, and the record `(10, 0, B)` keeps
its pixel `x = 720`. -/
theorem layout_invariant_under_scaling_witness :
    ((0 : ℚ) < 2 ∧ (⟨fin 10, fin 0, "B"⟩ : Record) ∈ sampleRecords)
    ∧ scaleX 2 3 sampleRecords = [⟨fin 3, fin 0, "A"⟩, ⟨fin 23, fin 0, "B"⟩, ⟨fin 13, fin 10, "C"⟩]
    ∧ minX (scaleX 2 3 sampleRecords) = fin 3 ∧ maxX (scaleX 2 3 sampleRecords) = fin 23
    ∧ mapX (graphW defaultOptions) (minX (scaleX 2 3 sampleRecords))
          (maxX (scaleX 2 3 sampleRecords)) (affine 2 3 (fin 10))
        = mapX (graphW defaultOptions) (minX sampleRecords) (maxX sampleRecords) (fin 10)
    ∧ mapX (graphW defaultOptions) (minX sampleRecords) (maxX sampleRecords) (fin 10) = fin 720
    ∧ (xTickCell defaultOptions (scaleX 2 3 sampleRecords) 1).shape
        = (xTickCell defaultOptions sampleRecords 1).shape := by
  have h := layout_invariant_under_scaling defaultOptions sampleRecords 2 3 (by norm_num)
  exact ⟨⟨by norm_num, by decide!⟩, by decide!, by decide!, by decide!,
    h.1.2.2.1 ⟨fin 10, fin 0, "B"⟩ (by decide!), by decide!, h.1.2.2.2.1 1⟩

end ScatterPlot
